import Mathlib

/-!
Verification development for the `config_manager` repository: a mutable,
schema-validated, queryable configuration tree (Go).  The Go sources are
shallowly embedded as Lean definitions below; theorems settle the frozen
claims about the mutation protocol, the optimistic-versioning layer, the
path resolver, the modifiable registry and the path-query engine.

Modelling conventions, fixed once for the whole file:

* Go pointer identity.  Every `*Node` in Go is a heap pointer; the registry,
  the path cache and `findNodePath` compare nodes by pointer equality.  We
  embed a node as a tree constructor carrying an explicit allocation
  identifier `id : Nat`; two nodes are "the same pointer" iff their `id`s
  are equal.  Functions that allocate in Go (`parseNode`, `DeepCopy`)
  thread a fresh-id counter and hand out strictly increasing ids, which is
  exactly the guarantee the Go allocator gives (distinct live allocations
  have distinct addresses).
* Go `float64` is embedded as `Rat`.  The claims about numbers only
  compare and convert them (no rounding-sensitive arithmetic), and `Rat`
  gives exactly the comparisons Go performs on finite floats.  Go's
  `int(f)` truncates toward zero; `goTrunc` below does the same.
* Go `int` / `int64` node payloads are collapsed into one `intV : Int`
  variant, mirroring `Node.Type()` which classifies both as `Integral`.
* Go `map[string]*Node` (the object representation in `node.go` /
  `part_006`) is embedded as an association list `List (String × Node)`.
  The list order models the map's iteration order.  Go deliberately leaves
  map iteration order unspecified (and randomizes it), so nothing below
  assumes the list order is the document's member-insertion order; where a
  claim depends on that gap the relation `GoMapElab` makes the
  nondeterminism explicit.
* Go `(value, error)` returns are embedded as `Except String α` with the
  source's error strings kept where convenient.
-/

namespace ConfigManager

/-- A value in the configuration tree, from `part_006` (`type Node struct
{ value interface{} }`).  Each constructor carries the allocation id that
models the Go pointer identity of the node. -/
inductive Node : Type where
  | nullN (id : Nat)
  | boolN (id : Nat) (b : Bool)
  | intN (id : Nat) (i : Int)
  | floatN (id : Nat) (q : Rat)
  | strN (id : Nat) (s : String)
  | objN (id : Nat) (entries : List (String × Node))
  | arrN (id : Nat) (elems : List Node)

namespace Node

/-- The Go pointer identity of a node. -/
def nid : Node → Nat
  | nullN i => i
  | boolN i _ => i
  | intN i _ => i
  | floatN i _ => i
  | strN i _ => i
  | objN i _ => i
  | arrN i _ => i

end Node

/-- `type NodeType int` with its seven constants, from `part_006`. -/
inductive NodeType : Type where
  | Null | Boolean | Integral | FloatingPoint | String | Object | Array
  deriving Repr, DecidableEq

namespace Node

/-- `func (n *Node) Type() NodeType` from `part_006`: classify the stored
variant (`int` and `int64` are both `Integral`). -/
def typ : Node → NodeType
  | nullN _ => .Null
  | boolN _ _ => .Boolean
  | intN _ _ => .Integral
  | floatN _ _ => .FloatingPoint
  | strN _ _ => .String
  | objN _ _ => .Object
  | arrN _ _ => .Array

/-- `func (n *Node) get() (interface{}, error)` from `part_006` only fails
on a nil value; the typed accessors below re-match the variant themselves,
so we embed each accessor directly against the stored variant. -/
def getString : Node → Except String String
  | strN _ s => .ok s
  | nullN _ => .error "node value is nil"
  | _ => .error "node is not string"

/-- `func (n *Node) getBool() (bool, error)` from `part_006`. -/
def getBool : Node → Except String Bool
  | boolN _ b => .ok b
  | nullN _ => .error "node value is nil"
  | _ => .error "node is not bool"

/-- Go `int(f)` for a finite `float64`: truncation toward zero
(`Int.tdiv`, not `/`, whose `Int` instance here rounds toward negative
infinity: `int(-2.5)` is `-2` in Go). -/
def goTrunc (q : Rat) : Int := q.num.tdiv (q.den : Int)

/-- `func (n *Node) getInt() (int, error)` from `part_006`: handles `int`,
`int64` and `float64` ("JSON numbers are float64"), truncating floats. -/
def getInt : Node → Except String Int
  | intN _ i => .ok i
  | floatN _ q => .ok (goTrunc q)
  | nullN _ => .error "node value is nil"
  | _ => .error "node is not numeric"

/-- `func (n *Node) getFloat() (float64, error)` from `part_006`: handles
`float64`, `int` and `int64`, converting ints. -/
def getFloat : Node → Except String Rat
  | floatN _ q => .ok q
  | intN _ i => .ok (i : Rat)
  | nullN _ => .error "node value is nil"
  | _ => .error "node is not numeric"

/-- `func (n *Node) GetObject() (map[string]*Node, error)` from `part_006`. -/
def GetObject : Node → Except String (List (String × Node))
  | objN _ entries => .ok entries
  | nullN _ => .error "node value is nil"
  | _ => .error "node is not object"

/-- `func (n *Node) GetArray() ([]*Node, error)` from `part_006`. -/
def GetArray : Node → Except String (List Node)
  | arrN _ elems => .ok elems
  | nullN _ => .error "node value is nil"
  | _ => .error "node is not array"

/-- `func (n *Node) atString(key string) (*Node, error)` from `part_006`:
object member access by key (first binding wins, as in a Go map where keys
are unique). -/
def atString (n : Node) (key : String) : Except String Node :=
  match n with
  | objN _ entries =>
    match entries.lookup key with
    | some v => .ok v
    | none => .error "key not found in object"
  | _ => .error "cannot call At(key) on non-object node"

/-- `func (n *Node) atInt(index int) (*Node, error)` from `part_006`:
array element access with bounds check `index < 0 || index >= len`. -/
def atInt (n : Node) (index : Int) : Except String Node :=
  match n with
  | arrN _ elems =>
    if h : 0 ≤ index ∧ index < (elems.length : Int) then
      .ok (elems.get ⟨index.toNat, by omega⟩)
    else
      .error "index out of bounds"
  | _ => .error "cannot call At(index) on non-array node"

/-- The argument of `func (n *Node) At(param interface{})`: an `int` or a
`string`. -/
inductive AtParam : Type where
  | idx (i : Int)
  | key (k : String)
  deriving Repr, DecidableEq

/-- `func (n *Node) At(param interface{}) (*Node, error)` from `part_006`. -/
def At (n : Node) : AtParam → Except String Node
  | .idx i => n.atInt i
  | .key k => n.atString k

/-- `GetString` with the variadic `param ...string` argument of `part_006`
(0 arguments reads the node itself, 1 argument is one object-key hop). -/
def GetString (n : Node) (param : List String) : Except String String :=
  match param with
  | [] => n.getString
  | [k] => (n.atString k).bind getString
  | _ => .error "too many arguments: expected 0 or 1"

/-- `GetBool` with the variadic argument, from `part_006`. -/
def GetBool (n : Node) (param : List String) : Except String Bool :=
  match param with
  | [] => n.getBool
  | [k] => (n.atString k).bind getBool
  | _ => .error "too many arguments: expected 0 or 1"

/-- `GetInt` with the variadic argument, from `part_006`. -/
def GetInt (n : Node) (param : List String) : Except String Int :=
  match param with
  | [] => n.getInt
  | [k] => (n.atString k).bind getInt
  | _ => .error "too many arguments: expected 0 or 1"

/-- `GetFloat` with the variadic argument, from `part_006`. -/
def GetFloat (n : Node) (param : List String) : Except String Rat :=
  match param with
  | [] => n.getFloat
  | [k] => (n.atString k).bind getFloat
  | _ => .error "too many arguments: expected 0 or 1"

end Node

/-! ### Tree helpers: subnodes, identities, structural content -/

mutual

/-- All nodes of the subtree rooted at `n` (the node itself included), in
depth-first order.  This is the set of `*Node` pointers reachable from `n`
in Go. -/
def subnodes : Node → List Node
  | .nullN i => [.nullN i]
  | .boolN i b => [.boolN i b]
  | .intN i v => [.intN i v]
  | .floatN i q => [.floatN i q]
  | .strN i s => [.strN i s]
  | .objN i entries => .objN i entries :: subnodesEntries entries
  | .arrN i elems => .arrN i elems :: subnodesList elems

/-- `subnodes` over the element list of an array node. -/
def subnodesList : List Node → List Node
  | [] => []
  | e :: es => subnodes e ++ subnodesList es

/-- `subnodes` over the entry list of an object node. -/
def subnodesEntries : List (String × Node) → List Node
  | [] => []
  | (_, v) :: es => subnodes v ++ subnodesEntries es

end

/-- The pointer identities occurring in the subtree rooted at `n`. -/
def treeIds (n : Node) : List Nat := (subnodes n).map Node.nid

/-- A tree is well formed when all its nodes have pairwise distinct
identities — the guarantee Go gives for a tree of distinct allocations
(no node is its own descendant, no sharing). -/
def WFTree (n : Node) : Prop := (treeIds n).Nodup

mutual

/-- The structural content of a tree with all pointer identities erased
(every id set to 0): two trees are "structurally identical" in the sense
of the spec iff their `strip`s are equal. -/
def strip : Node → Node
  | .nullN _ => .nullN 0
  | .boolN _ b => .boolN 0 b
  | .intN _ v => .intN 0 v
  | .floatN _ q => .floatN 0 q
  | .strN _ s => .strN 0 s
  | .objN _ entries => .objN 0 (stripEntries entries)
  | .arrN _ elems => .arrN 0 (stripList elems)

/-- `strip` over an array's element list. -/
def stripList : List Node → List Node
  | [] => []
  | e :: es => strip e :: stripList es

/-- `strip` over an object's entry list. -/
def stripEntries : List (String × Node) → List (String × Node)
  | [] => []
  | (k, v) :: es => (k, strip v) :: stripEntries es

end

mutual

/-- `func (n *Node) DeepCopy() *Node` from `part_006`: copy every node of
the tree, allocating a fresh `&Node{...}` for each (children first, then
the parent).  The second argument/result is the fresh-id allocator. -/
def DeepCopy : Node → Nat → Node × Nat
  | .nullN _, c => (.nullN c, c + 1)
  | .boolN _ b, c => (.boolN c b, c + 1)
  | .intN _ v, c => (.intN c v, c + 1)
  | .floatN _ q, c => (.floatN c q, c + 1)
  | .strN _ s, c => (.strN c s, c + 1)
  | .objN _ entries, c =>
    let (entries', c') := deepCopyEntries entries c
    (.objN c' entries', c' + 1)
  | .arrN _ elems, c =>
    let (elems', c') := deepCopyList elems c
    (.arrN c' elems', c' + 1)

/-- `DeepCopy` over an array's element list. -/
def deepCopyList : List Node → Nat → List Node × Nat
  | [], c => ([], c)
  | e :: es, c =>
    let (e', c') := DeepCopy e c
    let (es', c'') := deepCopyList es c'
    (e' :: es', c'')

/-- `DeepCopy` over an object's entry list. -/
def deepCopyEntries : List (String × Node) → Nat → List (String × Node) × Nat
  | [], c => ([], c)
  | (k, v) :: es, c =>
    let (v', c') := DeepCopy v c
    let (es', c'') := deepCopyEntries es c'
    ((k, v') :: es', c'')

end

/-- An external Go `interface{}` value handed to `insert`/`replace` (and
stored in the config sources): JSON-shaped data.  Object entries are kept
in a list; for an `orderedmap.OrderedMap` input the list order is the
document's member order, for a Go `map[string]interface{}` input it models
the map's iteration order. -/
inductive GoValue : Type where
  | nullV
  | boolV (b : Bool)
  | intV (i : Int)
  | floatV (q : Rat)
  | strV (s : String)
  | objV (entries : List (String × GoValue))
  | arrV (elems : List GoValue)

mutual

/-- `func parseNode(value any) *Node` from `part_002`: build a fresh `Node`
tree from an `interface{}` value, allocating a new node for every value
(children before their parent).  For ordered-map inputs Go iterates
`v.Keys()` in document order but stores the children into an unordered
`map[string]*Node`; the resulting entry-list order therefore models the Go
map's (unspecified) iteration order, see `GoMapElab`. -/
def parseNode : GoValue → Nat → Node × Nat
  | .nullV, c => (.nullN c, c + 1)
  | .boolV b, c => (.boolN c b, c + 1)
  | .intV i, c => (.intN c i, c + 1)
  | .floatV q, c => (.floatN c q, c + 1)
  | .strV s, c => (.strN c s, c + 1)
  | .objV entries, c =>
    let (entries', c') := parseNodeEntries entries c
    (.objN c' entries', c' + 1)
  | .arrV elems, c =>
    let (elems', c') := parseNodeList elems c
    (.arrN c' elems', c' + 1)

/-- `parseNode` over a JSON array's elements. -/
def parseNodeList : List GoValue → Nat → List Node × Nat
  | [], c => ([], c)
  | e :: es, c =>
    let (e', c') := parseNode e c
    let (es', c'') := parseNodeList es c'
    (e' :: es', c'')

/-- `parseNode` over a JSON object's entries. -/
def parseNodeEntries : List (String × GoValue) → Nat → List (String × Node) × Nat
  | [], c => ([], c)
  | (k, v) :: es, c =>
    let (v', c') := parseNode v c
    let (es', c'') := parseNodeEntries es c'
    ((k, v') :: es', c'')

end

/-! #### Go string-library models

The Go sources use `strings.Split`, `strings.Index`-based slicing,
`strings.TrimSpace`, `strings.Trim` and `strconv.Atoi`/`ParseFloat`.
These standard-library routines are modelled here on the character list
underlying a `String` (all inputs are ASCII path/query syntax, where Go's
byte indexing and character indexing agree). -/

/-- Split a character list at every (non-overlapping, leftmost-first)
occurrence of `sep`; `fuel` bounds the recursion and is always called
with at least the list length. -/
def goSplitChars (sep : List Char) (fuel : Nat) (cs : List Char) : List (List Char) :=
  match fuel with
  | 0 => [cs]
  | fuel + 1 =>
    if sep ≠ [] ∧ sep.isPrefixOf cs then
      [] :: goSplitChars sep fuel (cs.drop sep.length)
    else
      match cs with
      | [] => [[]]
      | c :: rest =>
        match goSplitChars sep fuel rest with
        | [] => [[c]]
        | chunk :: chunks => (c :: chunk) :: chunks

/-- Model of Go `strings.Split(s, sep)` for nonempty `sep`. -/
def goSplit (s sep : String) : List String :=
  (goSplitChars sep.data (s.data.length + 1) s.data).map String.mk

/-- Model of Go `strings.HasPrefix` / slice-prefix tests. -/
def goHasPrefix (s p : String) : Bool := p.data.isPrefixOf s.data

/-- Model of Go `strings.HasSuffix`. -/
def goHasSuffix (s p : String) : Bool := p.data.isSuffixOf s.data

/-- Go slicing `s[n:]` on character boundaries. -/
def goDrop (s : String) (n : Nat) : String := String.mk (s.data.drop n)

/-- Go slicing `s[:len(s)-n]` on character boundaries. -/
def goDropRight (s : String) (n : Nat) : String :=
  String.mk (s.data.take (s.data.length - n))

/-- Model of Go `strings.TrimSpace`. -/
def goTrimSpace (s : String) : String :=
  String.mk (((s.data.dropWhile Char.isWhitespace).reverse.dropWhile
    Char.isWhitespace).reverse)

/-- Digit run to number, `none` on a non-digit or an empty run. -/
def digitsToNat (cs : List Char) : Option Nat :=
  match cs with
  | [] => none
  | _ =>
    if cs.all Char.isDigit then
      some (cs.foldl (fun acc c => acc * 10 + (c.toNat - 48)) 0)
    else none

/-- Model of Go `strconv.Atoi`: optional sign, then decimal digits. -/
def goAtoi (s : String) : Option Int :=
  match s.data with
  | '-' :: rest => (digitsToNat rest).map (fun n => -(n : Int))
  | '+' :: rest => (digitsToNat rest).map (fun n => (n : Int))
  | cs => (digitsToNat cs).map (fun n => (n : Int))

/-! ### Identity-based path resolution (`findNodePath`, `part_002`) -/

/-- One structural path segment: an object key or an array index. -/
inductive PathSeg : Type where
  | key (k : String)
  | idx (i : Nat)
  deriving Repr, DecidableEq

/-- Render a segment the way `findNodePathRecursive` pushes it
(`strconv.Itoa` for indices, the key itself for keys). -/
def PathSeg.render : PathSeg → String
  | .key k => k
  | .idx i => toString i

mutual

/-- The segment-level core of `func findNodePath(parentNode, desiredNode
*Node) string` from `part_002`: depth-first search comparing pointer
identity (here: `nid` equality), returning the segments pushed by
`findNodePathRecursive`, or `none` when the target is unreachable. -/
def findNodePathSegs (parent : Node) (target : Nat) : Option (List PathSeg) :=
  if parent.nid = target then some []
  else
    match parent with
    | .arrN _ elems => findSegsInList elems target 0
    | .objN _ entries => findSegsInEntries entries target
    | _ => none

/-- DFS over an array's elements, pushing the element index. -/
def findSegsInList (elems : List Node) (target : Nat) (i : Nat) :
    Option (List PathSeg) :=
  match elems with
  | [] => none
  | e :: es =>
    match findNodePathSegs e target with
    | some segs => some (.idx i :: segs)
    | none => findSegsInList es target (i + 1)

/-- DFS over an object's entries, pushing the member key. -/
def findSegsInEntries (entries : List (String × Node)) (target : Nat) :
    Option (List PathSeg) :=
  match entries with
  | [] => none
  | (k, v) :: es =>
    match findNodePathSegs v target with
    | some segs => some (.key k :: segs)
    | none => findSegsInEntries es target

end

/-- `func findNodePath(parentNode, desiredNode *Node) string` from
`part_002`: `""` for the root itself or an unreachable node, otherwise
`"/" + strings.Join(pathSegments, "/")`. -/
def findNodePath (parent : Node) (target : Nat) : String :=
  match findNodePathSegs parent target with
  | none => ""
  | some [] => ""
  | some segs => "/" ++ String.intercalate "/" (segs.map PathSeg.render)

/-- Navigate one found segment with `Node.At`, exactly as the spec's
round-trip re-resolution does ("navigating one segment at a time with
`At`"). -/
def resolveSegs (n : Node) (segs : List PathSeg) : Except String Node :=
  match segs with
  | [] => .ok n
  | .key k :: rest => (n.At (.key k)).bind (resolveSegs · rest)
  | .idx i :: rest => (n.At (.idx (i : Int))).bind (resolveSegs · rest)

/-- Modelled from the spec: re-resolving a rendered `/`-joined path string
from the root.  The repository resolves path strings by splitting on `/`,
skipping empty segments (`jsonSetByPath` and friends in `part_002`), and
navigating with `At` — a key hop on objects, a decimal index hop on
arrays.  This definition is the spec side of the round-trip claim. -/
def resolvePathString (root : Node) (path : String) : Except String Node :=
  ((goSplit path "/").filter (fun s => s ≠ "")).foldlM
    (fun n seg =>
      match n with
      | .objN _ _ => n.At (.key seg)
      | .arrN _ _ =>
        match goAtoi seg with
        | some i => n.At (.idx i)
        | none => .error "invalid array index"
      | _ => .error "cannot traverse scalar node")
    root

/-! ### In-place mutation through a registered pointer -/

mutual

/-- The effect of the Go statement `*p = Node{newVal}` on the tree that
contains the node pointed to by `p`: the node with identity `target` keeps
its identity but its value is replaced by `newVal`'s value.  (In a
well-formed tree the identity occurs at most once, matching the unique Go
pointer.) -/
def assignById (n : Node) (target : Nat) (newVal : Node) : Node :=
  if n.nid = target then
    match newVal with
    | .nullN _ => .nullN target
    | .boolN _ b => .boolN target b
    | .intN _ v => .intN target v
    | .floatN _ q => .floatN target q
    | .strN _ s => .strN target s
    | .objN _ entries => .objN target entries
    | .arrN _ elems => .arrN target elems
  else
    match n with
    | .objN i entries => .objN i (assignEntries entries target newVal)
    | .arrN i elems => .arrN i (assignList elems target newVal)
    | other => other

/-- `assignById` over an array's elements. -/
def assignList (elems : List Node) (target : Nat) (newVal : Node) : List Node :=
  match elems with
  | [] => []
  | e :: es => assignById e target newVal :: assignList es target newVal

/-- `assignById` over an object's entries. -/
def assignEntries (entries : List (String × Node)) (target : Nat) (newVal : Node) :
    List (String × Node) :=
  match entries with
  | [] => []
  | (k, v) :: es => (k, assignById v target newVal) :: assignEntries es target newVal

end

/-- The current value of the node with identity `target`, read through the
tree (Go reads it directly through the registered pointer; in a
well-formed tree both views agree). -/
def lookupById (n : Node) (target : Nat) : Option Node :=
  (subnodes n).find? (fun m => m.nid = target)

/-! ### Query engine (`i_source.go`) -/

/-- A primitive Go value as it flows through the filter evaluator: the
`interface{}` produced either by `parseFilterCondition` (float64 / bool /
string) or by `matchesFilter`'s field extraction. -/
inductive GoPrim : Type where
  | strP (s : String)
  | numP (q : Rat)
  | boolP (b : Bool)
  deriving Repr, DecidableEq

/-- `type filterCondition struct` from `i_source.go`. -/
structure FilterCondition : Type where
  field : String
  operator : String
  value : GoPrim
  deriving Repr, DecidableEq

/-- `type querySegment struct` from `i_source.go` (`Type` is one of
`"key"`, `"wildcard"`, `"array"`, `"filter"`; `array` keeps its raw
`Value` string, parsed with `strconv.Atoi` only at execution time). -/
inductive QuerySeg : Type where
  | key (v : String)
  | wildcard
  | array (v : String)
  | filt (cond : FilterCondition)
  deriving Repr, DecidableEq

/-- `func toFloat64(val interface{}) (float64, bool)` from `i_source.go`
(the `int`/`int64`/`float64` cases are all `numP` here). -/
def toFloat64 : GoPrim → Option Rat
  | .numP q => some q
  | _ => none

/-- `func compareEqual(left, right interface{}) bool` from `i_source.go`:
type-safe equality, `false` across kinds. -/
def compareEqual (left right : GoPrim) : Bool :=
  match left with
  | .strP l => match right with | .strP r => l == r | _ => false
  | .numP l => match right with | .numP r => l == r | _ => false
  | .boolP l => match right with | .boolP r => l == r | _ => false

/-- `func compareNumeric(left interface{}, op string, right interface{})
bool` from `i_source.go`: coerce both sides to numeric, `false` if either
fails, else compare. -/
def compareNumeric (left : GoPrim) (op : String) (right : GoPrim) : Bool :=
  match toFloat64 left, toFloat64 right with
  | some l, some r =>
    if op = ">" then l > r
    else if op = "<" then l < r
    else if op = ">=" then l ≥ r
    else if op = "<=" then l ≤ r
    else false
  | _, _ => false

/-- `func evaluateCondition(left interface{}, op string, right
interface{}) bool` from `i_source.go`. -/
def evaluateCondition (left : GoPrim) (op : String) (right : GoPrim) : Bool :=
  if op = "==" then compareEqual left right
  else if op = "!=" then ! compareEqual left right
  else if op = ">" ∨ op = "<" ∨ op = ">=" ∨ op = "<=" then
    compareNumeric left op right
  else false

/-- `func (m *Manager) matchesFilter(node *Node, cond *filterCondition)
bool` from `i_source.go`: only object elements are considered; a missing
field or a non-primitive field never matches; numeric fields are read via
`GetFloat`.  (Go discards the accessor error with `fieldValue, _ = ...`;
after the `Type()` dispatch the accessor cannot fail on these variants,
so the `.error` fall-through branches below are unreachable.) -/
def matchesFilter (node : Node) (cond : FilterCondition) : Bool :=
  if node.typ ≠ .Object then false
  else
    match node.At (.key cond.field) with
    | .error _ => false
    | .ok fieldNode =>
      match fieldNode.typ with
      | .String =>
        match fieldNode.getString with
        | .ok s => evaluateCondition (.strP s) cond.operator cond.value
        | .error _ => false
      | .Integral | .FloatingPoint =>
        match fieldNode.getFloat with
        | .ok q => evaluateCondition (.numP q) cond.operator cond.value
        | .error _ => false
      | .Boolean =>
        match fieldNode.getBool with
        | .ok b => evaluateCondition (.boolP b) cond.operator cond.value
        | .error _ => false
      | _ => false

/-- `type QueryResult struct { Path string; Node *Node }` from
`i_source.go`.  Go stores `node.DeepCopy()` here; the copy is structurally
identical to the live subtree (theorem `DeepCopy_strip`) and the
query-level claims depend only on that structure, so the model stores the
subtree itself. -/
structure QueryResult : Type where
  path : String
  node : Node

/-- `func (m *Manager) executeQuery(node *Node, currentPath string,
segments []querySegment)` from `i_source.go`: recursive descent; key and
specific-index segments fail hard, wildcard/array-wildcard/filter
segments skip erroring branches. -/
def executeQuery (node : Node) (currentPath : String) (segments : List QuerySeg) :
    Except String (List QueryResult) :=
  match segments with
  | [] => .ok [{ path := currentPath, node := node }]
  | seg :: remaining =>
    match seg with
    | .key v =>
      if node.typ ≠ .Object then
        .error "cannot access key on non-object"
      else
        match node.At (.key v) with
        | .error _ => .error "key not found"
        | .ok child => executeQuery child (currentPath ++ "/" ++ v) remaining
    | .wildcard =>
      match node with
      | .objN _ entries =>
        .ok (entries.flatMap fun kv =>
          match executeQuery kv.2 (currentPath ++ "/" ++ kv.1) remaining with
          | .ok rs => rs
          | .error _ => [])
      | _ => .error "cannot use wildcard on non-object"
    | .array v =>
      match node with
      | .arrN _ elems =>
        if v = "*" then
          .ok (elems.enum.flatMap fun ic =>
            match executeQuery ic.2 (currentPath ++ "/" ++ toString ic.1) remaining with
            | .ok rs => rs
            | .error _ => [])
        else
          match goAtoi v with
          | none => .error "invalid array index"
          | some idx =>
            if h : 0 ≤ idx ∧ idx < (elems.length : Int) then
              executeQuery (elems.get ⟨idx.toNat, by omega⟩)
                (currentPath ++ "/" ++ toString idx) remaining
            else
              .error "array index out of bounds"
      | _ => .error "cannot use array access on non-array"
    | .filt cond =>
      match node with
      | .arrN _ elems =>
        .ok (elems.enum.flatMap fun ic =>
          if matchesFilter ic.2 cond then
            match executeQuery ic.2 (currentPath ++ "/" ++ toString ic.1) remaining with
            | .ok rs => rs
            | .error _ => []
          else [])
      | _ => .error "cannot use filter on non-array"
/-- Modelled from the Go standard library contract of
`strconv.ParseFloat`, restricted to plain decimal literals (sign, digits,
optional fraction); no claim exercises exponents, hex floats or `Inf`. -/
def goParseFloat (s : String) : Option Rat :=
  let neg := goHasPrefix s "-"
  let rest :=
    if neg then goDrop s 1
    else if goHasPrefix s "+" then goDrop s 1
    else s
  let magnitude : Option Rat :=
    match goSplit rest "." with
    | [a] => (digitsToNat a.data).map (fun n => (n : Rat))
    | [a, b] =>
      if a = "" && b = "" then none
      else
        let pa := if a = "" then some 0 else digitsToNat a.data
        let pb := if b = "" then some 0 else digitsToNat b.data
        match pa, pb with
        | some na, some nb =>
          some ((na : Rat) + (nb : Rat) / (10 : Rat) ^ b.data.length)
        | _, _ => none
    | _ => none
  magnitude.map (fun q => if neg then -q else q)

/-- The quote characters trimmed by `strings.Trim(valueStr, "\"'")`. -/
def isQuoteChar (c : Char) : Bool := c = Char.ofNat 34 ∨ c = Char.ofNat 39

/-- `strings.Trim(valueStr, "\"'")`: strip leading and trailing quote
characters. -/
def trimQuotes (s : String) : String :=
  String.mk (((s.data.dropWhile isQuoteChar).reverse.dropWhile isQuoteChar).reverse)

/-- The operator list of `parseFilterCondition`, in the order Go scans it. -/
def filterOperators : List String := [">=", "<=", "==", "!=", ">", "<"]

/-- `func parseFilterCondition(expr string)` from `i_source.go`: split at
the first occurrence of the first matching operator, then parse the value
as a number, a boolean, or a quote-trimmed string. -/
def parseFilterCondition (expr : String) : Except String FilterCondition :=
  match filterOperators.findSome? (fun op =>
    let parts := goSplit expr op
    match parts with
    | [] => none
    | [_] => none
    | f :: rest =>
      some (op, goTrimSpace f, goTrimSpace (String.intercalate op rest))) with
  | some (op, field, valueStr) =>
    let value : GoPrim :=
      match goParseFloat valueStr with
      | some q => .numP q
      | none =>
        if valueStr = "true" then .boolP true
        else if valueStr = "false" then .boolP false
        else .strP (trimQuotes valueStr)
    .ok { field := field, operator := op, value := value }
  | none => .error "invalid filter condition"

/-- `func parseQuerySegments(query string)` from `i_source.go`. -/
def parseQuerySegments (query : String) : Except String (List QuerySeg) :=
  if ¬ goHasPrefix query "/" then .error "query must start with /"
  else
    (goSplit (goDrop query 1) "/").foldlM
      (fun acc part =>
        if part = "" then .ok acc
        else if part = "*" then .ok (acc ++ [QuerySeg.wildcard])
        else if goHasPrefix part "[" && goHasSuffix part "]" then
          let inner := goDropRight (goDrop part 1) 1
          if inner = "*" then .ok (acc ++ [QuerySeg.array "*"])
          else if goHasPrefix inner "?" then
            match parseFilterCondition (goDrop inner 1) with
            | .ok cond => .ok (acc ++ [QuerySeg.filt cond])
            | .error e => .error e
          else .ok (acc ++ [QuerySeg.array inner])
        else .ok (acc ++ [QuerySeg.key part]))
      []

/-- `func (m *Manager) queryLocked(query string)` from `i_source.go`:
empty query or `/` returns the whole tree at path `/`; otherwise parse and
execute.  (Go returns `m.config.DeepCopy()` for the whole-tree case; see
the note on `QueryResult`.) -/
def queryLocked (config : Node) (query : String) : Except String (List QueryResult) :=
  if query = "" ∨ query = "/" then .ok [{ path := "/", node := config }]
  else
    match parseQuerySegments query with
    | .error e => .error e
    | .ok segments => executeQuery config "" segments

/-! ### Manager state and the mutation protocol (`part_000`) -/

/-- `type modifiableType int` from `part_000`. -/
inductive ModifiableType : Type where
  | Insertable | Removable | Replaceable
  deriving Repr, DecidableEq

/-- `type modifiable struct` from `part_000`.  `Node *Node` is a pointer
into the live tree; the model stores its identity.  `Handler` is an
arbitrary user callback; the model keeps only whether one is registered
(`Handler != nil`), its outcome being supplied per call by `MutOracle`. -/
structure Modifiable : Type where
  type : ModifiableType
  path : String
  nodeId : Nat
  hasHandler : Bool

/-- The Manager document state from `part_000` (`type Manager struct`):
root tree, registry, version counter, path cache, plus the fresh-id
allocator that models the Go heap.  The change history, lock, source
handle and HTTP server are collaborators that no claim observes. -/
structure ManagerState : Type where
  config : Node
  modifiables : List Modifiable
  version : Int
  pathCacheValid : Bool
  pathCache : List (Nat × String)
  nextId : Nat

/-- Outcomes of the external collaborators consulted during one mutation,
in protocol order.  Each models the success of a call whose internals no
claim observes: `customValidator.Validate`, `Clone(source.getConfigObject())`,
`jsonInsert/Remove/SetByPath` on the staged clone,
`validateJSONAgainstSchema`, the user handler, and `source.setConfig`. -/
structure MutOracle : Type where
  customOk : Bool
  cloneOk : Bool
  editOk : Bool
  schemaOk : Bool
  handlerOk : Bool
  persistOk : Bool

/-- The distinguishable failure classes of `insertLocked` / `removeLocked`
/ `replaceLocked` from `part_000`, in the order the code can raise them.
`danglingRegistryNode` is model-only: it marks a registry entry whose
pointer is not in the tree, which maintained manager states never contain
(Go would read through the stale pointer). -/
inductive MutErr : Type where
  | notModifiable
  | danglingRegistryNode
  | typeMismatch
  | indexOutOfBounds
  | customFailed
  | cloneFailed
  | editFailed
  | schemaFailed
  | handlerFailed
  | persistFailed
  deriving Repr, DecidableEq

/-- Result of one mutation call: the returned error (if any), the manager
state after the call, and the node value passed to the registered change
handler when the handler was invoked. -/
structure MutResult : Type where
  res : Except MutErr Unit
  state : ManagerState
  notified : Option Node

mutual

/-- `func (m *Manager) buildPathCacheRecursive(node *Node, path string)`
from `part_000`: record every node's path, keyed by pointer identity. -/
def buildPathCache (n : Node) (path : String) : List (Nat × String) :=
  (n.nid, path) ::
    match n with
    | .objN _ entries => buildPathCacheEntries entries path
    | .arrN _ elems => buildPathCacheList elems path 0
    | _ => []

/-- `buildPathCache` over an array's elements (paths `path/i`). -/
def buildPathCacheList (elems : List Node) (path : String) (i : Nat) :
    List (Nat × String) :=
  match elems with
  | [] => []
  | e :: es => buildPathCache e (path ++ "/" ++ toString i) ++ buildPathCacheList es path (i + 1)

/-- `buildPathCache` over an object's entries (paths `path/key`). -/
def buildPathCacheEntries (entries : List (String × Node)) (path : String) :
    List (Nat × String) :=
  match entries with
  | [] => []
  | (k, v) :: es => buildPathCache v (path ++ "/" ++ k) ++ buildPathCacheEntries es path

end

/-- `func (m *Manager) findNodePathLocked(n *Node) string` from
`part_000`: consult the cache when valid, else fall back to the DFS
`findNodePath`.  (When the flag is set the cache was rebuilt from the
current tree — `findNodePathCached`'s lazy rebuild branch is unreachable
through this entry point.) -/
def findNodePathLocked (st : ManagerState) (target : Nat) : String :=
  if st.pathCacheValid then
    match st.pathCache.lookup target with
    | some p => p
    | none => ""
  else findNodePath st.config target

/-- `func (m *Manager) findAndSanitizeNodePathLocked(n *Node)` from
`part_000`: an empty path (root or unreachable node) is rejected. -/
def findAndSanitizeNodePathLocked (st : ManagerState) (target : Nat) :
    Except String String :=
  let p := findNodePathLocked st target
  if p = "" then .error "node has no valid path in config tree" else .ok p

/-- `func (m *Manager) findModifiableLocked(t modifiableType, path
string)` from `part_000`: linear scan for the exact (kind, path) pair. -/
def findModifiableLocked (st : ManagerState) (t : ModifiableType) (path : String) :
    Option Modifiable :=
  st.modifiables.find? (fun m => m.type = t && m.path = path)

/-- `func (m *Manager) invalidatePathCache()` from `part_000`. -/
def invalidatePathCache (st : ManagerState) : ManagerState :=
  { st with pathCacheValid := false, pathCache := [] }

/-- `func (m *Manager) updateModifiablesLocked()` from `part_000`: keep
exactly the entries whose node still has a nonempty path, refreshing the
stored path. -/
def updateModifiablesLocked (st : ManagerState) : ManagerState :=
  { st with
    modifiables := st.modifiables.filterMap (fun mod =>
      let p := findNodePathLocked st mod.nodeId
      if p = "" then none else some { mod with path := p }) }

/-- The commit tail shared by the three mutations in `part_000`:
`m.version++; m.invalidatePathCache(); m.updateModifiablesLocked()` (the
history append that follows is observable by no claim). -/
def commitLocked (st : ManagerState) : ManagerState :=
  updateModifiablesLocked (invalidatePathCache { st with version := st.version + 1 })

/-- Set the root identity of a freshly built value, modelling that the Go
assignment `*p = ...` writes the value into the node at `p` (whose address
— identity — is unchanged). -/
def setRootId (newVal : Node) (target : Nat) : Node :=
  match newVal with
  | .nullN _ => .nullN target
  | .boolN _ b => .boolN target b
  | .intN _ v => .intN target v
  | .floatN _ q => .floatN target q
  | .strN _ s => .strN target s
  | .objN _ entries => .objN target entries
  | .arrN _ elems => .arrN target elems

/-- `func (m *Manager) insertLocked(path string, index int, value
interface{}) error` from `part_000`, step for step: resolve the
Insertable entry, type-check and bounds-check the live array, parse and
custom-validate the new value, clone/edit/schema-validate the staged JSON
(outcomes from the oracle), mutate the live array in place, invoke the
handler (rolling back on handler error), persist (rolling back on
failure), then commit: version+1, cache invalidation, registry re-sync. -/
def insertLocked (st : ManagerState) (o : MutOracle) (path : String)
    (index : Int) (value : GoValue) : MutResult :=
  match findModifiableLocked st .Insertable path with
  | none => ⟨.error .notModifiable, st, none⟩
  | some mod =>
    match lookupById st.config mod.nodeId with
    | none => ⟨.error .danglingRegistryNode, st, none⟩
    | some node =>
      match node.GetArray with
      | .error _ => ⟨.error .typeMismatch, st, none⟩
      | .ok array =>
        if index < 0 ∨ (array.length : Int) < index then
          ⟨.error .indexOutOfBounds, st, none⟩
        else
          let (newNode, nextId') := parseNode value st.nextId
          let st' := { st with nextId := nextId' }
          if ¬ o.customOk then ⟨.error .customFailed, st', none⟩
          else if ¬ o.cloneOk then ⟨.error .cloneFailed, st', none⟩
          else if ¬ o.editOk then ⟨.error .editFailed, st', none⟩
          else if ¬ o.schemaOk then ⟨.error .schemaFailed, st', none⟩
          else
            let newArr := array.take index.toNat ++ newNode :: array.drop index.toNat
            let mutated := { st' with
              config := assignById st'.config mod.nodeId (Node.arrN 0 newArr) }
            let rolledBack := { mutated with
              config := assignById mutated.config mod.nodeId (Node.arrN 0 array) }
            if mod.hasHandler ∧ ¬ o.handlerOk then
              ⟨.error .handlerFailed, rolledBack, some newNode⟩
            else
              let notified := if mod.hasHandler then some newNode else none
              if ¬ o.persistOk then
                ⟨.error .persistFailed, rolledBack, notified⟩
              else
                ⟨.ok (), commitLocked mutated, notified⟩

/-- `func (m *Manager) removeLocked(path string, index int) error` from
`part_000`: like insert but with the `[0,len)` bound, no custom
validation, and the removed element handed to the handler. -/
def removeLocked (st : ManagerState) (o : MutOracle) (path : String)
    (index : Int) : MutResult :=
  match findModifiableLocked st .Removable path with
  | none => ⟨.error .notModifiable, st, none⟩
  | some mod =>
    match lookupById st.config mod.nodeId with
    | none => ⟨.error .danglingRegistryNode, st, none⟩
    | some node =>
      match node.GetArray with
      | .error _ => ⟨.error .typeMismatch, st, none⟩
      | .ok array =>
        if h : index < 0 ∨ (array.length : Int) ≤ index then
          ⟨.error .indexOutOfBounds, st, none⟩
        else
          if ¬ o.cloneOk then ⟨.error .cloneFailed, st, none⟩
          else if ¬ o.editOk then ⟨.error .editFailed, st, none⟩
          else if ¬ o.schemaOk then ⟨.error .schemaFailed, st, none⟩
          else
            let removedNode := array.get ⟨index.toNat, by omega⟩
            let newArr := array.take index.toNat ++ array.drop (index.toNat + 1)
            let mutated := { st with
              config := assignById st.config mod.nodeId (Node.arrN 0 newArr) }
            let rolledBack := { mutated with
              config := assignById mutated.config mod.nodeId (Node.arrN 0 array) }
            if mod.hasHandler ∧ ¬ o.handlerOk then
              ⟨.error .handlerFailed, rolledBack, some removedNode⟩
            else
              let notified := if mod.hasHandler then some removedNode else none
              if ¬ o.persistOk then
                ⟨.error .persistFailed, rolledBack, notified⟩
              else
                ⟨.ok (), commitLocked mutated, notified⟩

/-- `func (m *Manager) replaceLocked(path string, value interface{})
error` from `part_000`: resolve the Replaceable entry, parse and
custom-validate, clone/edit/schema-validate the staged JSON, assign the
new value into the registered node in place (`*mod.Node = *newNode`),
invoke the handler with the live node, persist, commit; roll the old node
value back on handler or persistence failure. -/
def replaceLocked (st : ManagerState) (o : MutOracle) (path : String)
    (value : GoValue) : MutResult :=
  match findModifiableLocked st .Replaceable path with
  | none => ⟨.error .notModifiable, st, none⟩
  | some mod =>
    match lookupById st.config mod.nodeId with
    | none => ⟨.error .danglingRegistryNode, st, none⟩
    | some oldNode =>
      let (newNode, nextId') := parseNode value st.nextId
      let st' := { st with nextId := nextId' }
      if ¬ o.customOk then ⟨.error .customFailed, st', none⟩
      else if ¬ o.cloneOk then ⟨.error .cloneFailed, st', none⟩
      else if ¬ o.editOk then ⟨.error .editFailed, st', none⟩
      else if ¬ o.schemaOk then ⟨.error .schemaFailed, st', none⟩
      else
        let mutated := { st' with
          config := assignById st'.config mod.nodeId newNode }
        let rolledBack := { mutated with
          config := assignById mutated.config mod.nodeId oldNode }
        if mod.hasHandler ∧ ¬ o.handlerOk then
          ⟨.error .handlerFailed, rolledBack, some (setRootId newNode mod.nodeId)⟩
        else
          let notified :=
            if mod.hasHandler then some (setRootId newNode mod.nodeId) else none
          if ¬ o.persistOk then
            ⟨.error .persistFailed, rolledBack, notified⟩
          else
            ⟨.ok (), commitLocked mutated, notified⟩

/-! ### Registration (`part_000`) -/

/-- `func (m *Manager) OnInsert(node *Node, handler handler_t) error`
from `part_000`: the node must currently be an array and have a nonempty
path; on success an `Insertable` entry is appended. -/
def OnInsert (st : ManagerState) (node : Node) (hasHandler : Bool) :
    Except String Unit × ManagerState :=
  if node.typ ≠ .Array then (.error "node must be array for insert operations", st)
  else
    match findAndSanitizeNodePathLocked st node.nid with
    | .error e => (.error e, st)
    | .ok p =>
      (.ok (), { st with modifiables := st.modifiables ++
        [{ type := .Insertable, path := p, nodeId := node.nid, hasHandler := hasHandler }] })

/-- `func (m *Manager) OnRemove(node *Node, handler handler_t) error`
from `part_000`. -/
def OnRemove (st : ManagerState) (node : Node) (hasHandler : Bool) :
    Except String Unit × ManagerState :=
  if node.typ ≠ .Array then (.error "node must be array for remove operations", st)
  else
    match findAndSanitizeNodePathLocked st node.nid with
    | .error e => (.error e, st)
    | .ok p =>
      (.ok (), { st with modifiables := st.modifiables ++
        [{ type := .Removable, path := p, nodeId := node.nid, hasHandler := hasHandler }] })

/-- `func (m *Manager) OnReplace(node *Node, handler handler_t) error`
from `part_000`: any node type, but it must have a nonempty path. -/
def OnReplace (st : ManagerState) (node : Node) (hasHandler : Bool) :
    Except String Unit × ManagerState :=
  match findAndSanitizeNodePathLocked st node.nid with
  | .error e => (.error e, st)
  | .ok p =>
    (.ok (), { st with modifiables := st.modifiables ++
      [{ type := .Replaceable, path := p, nodeId := node.nid, hasHandler := hasHandler }] })

/-! ### Optimistic concurrency layer (`utilities.go`) -/

/-- `type ConflictError struct` from `utilities.go` (the `Message` string
is presentation only and not modelled). -/
structure ConflictError : Type where
  path : String
  operation : String
  yourVersion : Int
  currentVersion : Int
  currentValue : Option Node

/-- `func NewConflictError(path, operation string, yourVersion,
currentVersion int64)` from `utilities.go`: no current-value snapshot. -/
def NewConflictError (path operation : String) (yourVersion currentVersion : Int) :
    ConflictError :=
  { path := path, operation := operation, yourVersion := yourVersion,
    currentVersion := currentVersion, currentValue := none }

/-- Errors out of the conditional operations: a `*ConflictError` or one of
the mutation-protocol errors (Go type-switches on `*ConflictError`, which
no mutation-protocol path ever constructs). -/
inductive CondErr : Type where
  | conflict (e : ConflictError)
  | mutErr (e : MutErr)

/-- `CondErr.conflict`? — discriminator mirroring `IsConflictError`. -/
def IsConflictError : Except CondErr Unit → Bool
  | .error (.conflict _) => true
  | _ => false

/-- Result of one conditional operation. -/
structure CondResult : Type where
  res : Except CondErr Unit
  state : ManagerState
  notified : Option Node

/-- Lift a mutation result into a conditional result. -/
def MutResult.toCond (r : MutResult) : CondResult :=
  ⟨r.res.mapError .mutErr, r.state, r.notified⟩

/-- `func (m *Manager) ConditionalInsert(path string, index int,
expectedVersion int64, value interface{}) error` from `utilities.go`. -/
def ConditionalInsert (st : ManagerState) (o : MutOracle) (path : String)
    (index : Int) (expectedVersion : Int) (value : GoValue) : CondResult :=
  if st.version ≠ expectedVersion then
    ⟨.error (.conflict (NewConflictError path "insert" expectedVersion st.version)), st, none⟩
  else (insertLocked st o path index value).toCond

/-- `func (m *Manager) ConditionalRemove(path string, index int,
expectedVersion int64) error` from `utilities.go`. -/
def ConditionalRemove (st : ManagerState) (o : MutOracle) (path : String)
    (index : Int) (expectedVersion : Int) : CondResult :=
  if st.version ≠ expectedVersion then
    ⟨.error (.conflict (NewConflictError path "remove" expectedVersion st.version)), st, none⟩
  else (removeLocked st o path index).toCond

/-- `func (m *Manager) ConditionalReplace(path string, expectedVersion
int64, value interface{}) error` from `utilities.go`. -/
def ConditionalReplace (st : ManagerState) (o : MutOracle) (path : String)
    (expectedVersion : Int) (value : GoValue) : CondResult :=
  if st.version ≠ expectedVersion then
    ⟨.error (.conflict (NewConflictError path "replace" expectedVersion st.version)), st, none⟩
  else (replaceLocked st o path value).toCond

/-- `func (m *Manager) CompareAndSwap(path string, expectedVersion int64,
newValue interface{}) error` from `utilities.go`: on mismatch the error
additionally carries the current value at the path when `queryLocked`
resolves it; on match it is exactly `replaceLocked`. -/
def CompareAndSwap (st : ManagerState) (o : MutOracle) (path : String)
    (expectedVersion : Int) (newValue : GoValue) : CondResult :=
  if st.version ≠ expectedVersion then
    let currentValue : Option Node :=
      match queryLocked st.config path with
      | .ok (r :: _) => some r.node
      | _ => none
    ⟨.error (.conflict
      { path := path, operation := "compare-and-swap",
        yourVersion := expectedVersion, currentVersion := st.version,
        currentValue := currentValue }), st, none⟩
  else (replaceLocked st o path newValue).toCond

/-! ### Mutation sequences -/

/-- One mutation request: the operation, its arguments, and the outcomes
of the external collaborators consulted during it. -/
inductive MutOp : Type where
  | ins (path : String) (index : Int) (value : GoValue) (o : MutOracle)
  | rem (path : String) (index : Int) (o : MutOracle)
  | rep (path : String) (value : GoValue) (o : MutOracle)

/-- Whether a mutation result is a commit. -/
def isOkU : Except MutErr Unit → Bool
  | .ok _ => true
  | .error _ => false

/-- Dispatch one mutation request against the manager. -/
def applyMutOp (st : ManagerState) : MutOp → MutResult
  | .ins p i v o => insertLocked st o p i v
  | .rem p i o => removeLocked st o p i
  | .rep p v o => replaceLocked st o p v

/-- Run a sequence of mutation requests, counting the committed
(successful) ones. -/
def runMutOps (st : ManagerState) : List MutOp → ManagerState × Nat
  | [] => (st, 0)
  | op :: ops =>
    let r := applyMutOp st op
    let (st', n) := runMutOps r.state ops
    (st', (if isOkU r.res then 1 else 0) + n)

/-! ### Derived predicates and relations used by the theorems -/

/-- The failure classes raised before the in-memory mutation step:
modifiable lookup (including the live-array type check), index bounds,
custom validation, cloning, path editing of the staged clone, and schema
validation.  `handlerFailed`/`persistFailed` arise after the in-memory
edit and are excluded. -/
def preMutationErr : MutErr → Bool
  | .notModifiable | .danglingRegistryNode | .typeMismatch | .indexOutOfBounds
  | .customFailed | .cloneFailed | .editFailed | .schemaFailed => true
  | .handlerFailed | .persistFailed => false

/-- The primitive kind of a Go value flowing through the filter
evaluator. -/
inductive PrimKind : Type where
  | strK | numK | boolK
  deriving Repr, DecidableEq

/-- Classify a `GoPrim` by kind. -/
def GoPrim.kind : GoPrim → PrimKind
  | .strP _ => .strK
  | .numP _ => .numK
  | .boolP _ => .boolK

/-- The relation between a document read in member-insertion order (an
`orderedmap.OrderedMap` source) and a `Node` tree the Go runtime may
actually build for it: `parseNode` iterates the ordered keys but stores
members into an unordered `map[string]*Node`, so each object's entry list
comes out in the map's iteration order — an arbitrary permutation of the
members (the Go language leaves map iteration order undefined and the
runtime randomizes it).  Arrays keep their element order. -/
inductive GoMapElab : GoValue → Node → Prop where
  | nullE (i : Nat) : GoMapElab .nullV (.nullN i)
  | boolE (i : Nat) (b : Bool) : GoMapElab (.boolV b) (.boolN i b)
  | intE (i : Nat) (v : Int) : GoMapElab (.intV v) (.intN i v)
  | floatE (i : Nat) (q : Rat) : GoMapElab (.floatV q) (.floatN i q)
  | strE (i : Nat) (s : String) : GoMapElab (.strV s) (.strN i s)
  | arrE (i : Nat) (vs : List GoValue) (ns : List Node) :
      List.Forall₂ GoMapElab vs ns → GoMapElab (.arrV vs) (.arrN i ns)
  | objE (i : Nat) (ventries : List (String × GoValue))
      (aligned nentries : List (String × Node)) :
      ventries.map Prod.fst = aligned.map Prod.fst →
      List.Forall₂ GoMapElab (ventries.map Prod.snd) (aligned.map Prod.snd) →
      List.Perm nentries aligned →
      GoMapElab (.objV ventries) (.objN i nentries)

/-- The registry-entry guarantee for a post-commit state. -/
def RegistryInSync (st : ManagerState) : Prop :=
  ∀ mod ∈ st.modifiables,
    mod.path = findNodePath st.config mod.nodeId ∧
    mod.path ≠ "" ∧
    ∃ m ∈ subnodes st.config, m.nid = mod.nodeId

/-- Every object in the tree has pairwise distinct member keys — the
guarantee a Go `map[string]*Node` gives. -/
def GoodKeys (root : Node) : Prop :=
  ∀ (i : Nat) (entries : List (String × Node)),
    Node.objN i entries ∈ subnodes root → (entries.map Prod.fst).Nodup

/-! ### Supporting lemmas for the mutation protocol -/

theorem invalidatePathCache_version (st : ManagerState) :
    (invalidatePathCache st).version = st.version := rfl

theorem updateModifiablesLocked_version (st : ManagerState) :
    (updateModifiablesLocked st).version = st.version := rfl

theorem updateModifiablesLocked_config (st : ManagerState) :
    (updateModifiablesLocked st).config = st.config := rfl

theorem commitLocked_version (st : ManagerState) :
    (commitLocked st).version = st.version + 1 := rfl

/-- `insertLocked` bumps the version by exactly 1 on success and leaves it
unchanged on any error. -/
theorem insertLocked_version (st : ManagerState) (o : MutOracle) (path : String)
    (index : Int) (value : GoValue) :
    (insertLocked st o path index value).state.version =
      (if isOkU (insertLocked st o path index value).res then st.version + 1
       else st.version) := by
  unfold insertLocked
  repeat' split
  all_goals simp_all [commitLocked, updateModifiablesLocked, invalidatePathCache, isOkU]

/-- `removeLocked` bumps the version by exactly 1 on success and leaves it
unchanged on any error. -/
theorem removeLocked_version (st : ManagerState) (o : MutOracle) (path : String)
    (index : Int) :
    (removeLocked st o path index).state.version =
      (if isOkU (removeLocked st o path index).res then st.version + 1
       else st.version) := by
  unfold removeLocked
  repeat' split
  all_goals simp_all [commitLocked, updateModifiablesLocked, invalidatePathCache, isOkU]

/-- `replaceLocked` bumps the version by exactly 1 on success and leaves
it unchanged on any error. -/
theorem replaceLocked_version (st : ManagerState) (o : MutOracle) (path : String)
    (value : GoValue) :
    (replaceLocked st o path value).state.version =
      (if isOkU (replaceLocked st o path value).res then st.version + 1
       else st.version) := by
  unfold replaceLocked
  repeat' split
  all_goals simp_all [commitLocked, updateModifiablesLocked, invalidatePathCache, isOkU]

theorem applyMutOp_version (st : ManagerState) (op : MutOp) :
    (applyMutOp st op).state.version =
      (if isOkU (applyMutOp st op).res then st.version + 1 else st.version) := by
  cases op with
  | ins p i v o => exact insertLocked_version st o p i v
  | rem p i o => exact removeLocked_version st o p i
  | rep p v o => exact replaceLocked_version st o p v

theorem runMutOps_version (ops : List MutOp) (st : ManagerState) :
    (runMutOps st ops).1.version = st.version + ((runMutOps st ops).2 : Int) := by
  induction ops generalizing st with
  | nil => simp [runMutOps]
  | cons op ops ih =>
    have h := applyMutOp_version st op
    cases hb : isOkU (applyMutOp st op).res with
    | false =>
      rw [hb] at h; simp at h
      simp only [runMutOps, hb]
      rw [ih, h]; push_cast; ring
    | true =>
      rw [hb] at h; simp at h
      simp only [runMutOps, hb]
      rw [ih, h]; push_cast; ring

/-- C1.  For every call to insert, remove, or replace: success bumps the
version counter by exactly 1 and any error (including rollback after a
failed callback or failed persistence) leaves it unchanged; consequently,
starting from a fresh Manager (version 1), after a sequence of mutations
the version is 1 + the number of committed ones. -/
theorem claim_C1_version_monotonicity :
    (∀ (st : ManagerState) (o : MutOracle) (path : String) (index : Int)
      (value : GoValue),
      ((insertLocked st o path index value).res = .ok () →
        (insertLocked st o path index value).state.version = st.version + 1) ∧
      (∀ e, (insertLocked st o path index value).res = .error e →
        (insertLocked st o path index value).state.version = st.version)) ∧
    (∀ (st : ManagerState) (o : MutOracle) (path : String) (index : Int),
      ((removeLocked st o path index).res = .ok () →
        (removeLocked st o path index).state.version = st.version + 1) ∧
      (∀ e, (removeLocked st o path index).res = .error e →
        (removeLocked st o path index).state.version = st.version)) ∧
    (∀ (st : ManagerState) (o : MutOracle) (path : String) (value : GoValue),
      ((replaceLocked st o path value).res = .ok () →
        (replaceLocked st o path value).state.version = st.version + 1) ∧
      (∀ e, (replaceLocked st o path value).res = .error e →
        (replaceLocked st o path value).state.version = st.version)) ∧
    (∀ (st : ManagerState) (ops : List MutOp), st.version = 1 →
      (runMutOps st ops).1.version = 1 + ((runMutOps st ops).2 : Int)) := by
  refine ⟨fun st o path index value => ?_, fun st o path index => ?_,
    fun st o path value => ?_, fun st ops h1 => ?_⟩
  · have h := insertLocked_version st o path index value
    constructor
    · intro hok; simpa [hok] using h
    · intro e he; simp [he] at h; simpa [he] using h
  · have h := removeLocked_version st o path index
    constructor
    · intro hok; simpa [hok] using h
    · intro e he; simp [he] at h; simpa [he] using h
  · have h := replaceLocked_version st o path value
    constructor
    · intro hok; simpa [hok] using h
    · intro e he; simp [he] at h; simpa [he] using h
  · have h := runMutOps_version ops st
    rw [h, h1]

/-- Witness for C1 at a concrete input: a fresh one-entry manager, one
committed insert followed by one rejected (out-of-bounds) insert; the
version ends at 2 = 1 + 1. -/
theorem claim_C1_version_monotonicity_witness :
    ({ config := Node.objN 0 [("items", Node.arrN 1 [Node.intN 2 7])],
       modifiables := [{ type := .Insertable, path := "/items", nodeId := 1,
                         hasHandler := false }],
       version := 1, pathCacheValid := false, pathCache := [],
       nextId := 3 } : ManagerState).version = 1 ∧
    (runMutOps
      { config := Node.objN 0 [("items", Node.arrN 1 [Node.intN 2 7])],
        modifiables := [{ type := .Insertable, path := "/items", nodeId := 1,
                          hasHandler := false }],
        version := 1, pathCacheValid := false, pathCache := [],
        nextId := 3 }
      [.ins "/items" 0 (.intV 9) ⟨true, true, true, true, true, true⟩,
       .ins "/items" 5 (.intV 9) ⟨true, true, true, true, true, true⟩]).1.version =
      1 + ((runMutOps
      { config := Node.objN 0 [("items", Node.arrN 1 [Node.intN 2 7])],
        modifiables := [{ type := .Insertable, path := "/items", nodeId := 1,
                          hasHandler := false }],
        version := 1, pathCacheValid := false, pathCache := [],
        nextId := 3 }
      [.ins "/items" 0 (.intV 9) ⟨true, true, true, true, true, true⟩,
       .ins "/items" 5 (.intV 9) ⟨true, true, true, true, true, true⟩]).2 : Int) :=
  ⟨rfl, claim_C1_version_monotonicity.2.2.2 _ _ rfl⟩

theorem insertLocked_preMutation_frozen (st : ManagerState) (o : MutOracle)
    (path : String) (index : Int) (value : GoValue) :
    ∀ e : MutErr, (insertLocked st o path index value).res = .error e →
    preMutationErr e = true →
    (insertLocked st o path index value).state.config = st.config ∧
    (insertLocked st o path index value).state.version = st.version ∧
    (insertLocked st o path index value).state.modifiables = st.modifiables := by
  unfold insertLocked
  repeat' split
  all_goals intro e he hpre
  all_goals
    first
    | exact ⟨rfl, rfl, rfl⟩
    | (injection he with h; subst h; simp [preMutationErr] at hpre)
    | simp at he

theorem removeLocked_preMutation_frozen (st : ManagerState) (o : MutOracle)
    (path : String) (index : Int) :
    ∀ e : MutErr, (removeLocked st o path index).res = .error e →
    preMutationErr e = true →
    (removeLocked st o path index).state.config = st.config ∧
    (removeLocked st o path index).state.version = st.version ∧
    (removeLocked st o path index).state.modifiables = st.modifiables := by
  unfold removeLocked
  repeat' split
  all_goals intro e he hpre
  all_goals
    first
    | exact ⟨rfl, rfl, rfl⟩
    | (injection he with h; subst h; simp [preMutationErr] at hpre)
    | simp at he

theorem replaceLocked_preMutation_frozen (st : ManagerState) (o : MutOracle)
    (path : String) (value : GoValue) :
    ∀ e : MutErr, (replaceLocked st o path value).res = .error e →
    preMutationErr e = true →
    (replaceLocked st o path value).state.config = st.config ∧
    (replaceLocked st o path value).state.version = st.version ∧
    (replaceLocked st o path value).state.modifiables = st.modifiables := by
  unfold replaceLocked
  repeat' split
  all_goals intro e he hpre
  all_goals
    first
    | exact ⟨rfl, rfl, rfl⟩
    | (injection he with h; subst h; simp [preMutationErr] at hpre)
    | simp at he

/-- C2.  If insert, remove, or replace fails before the in-memory mutation
step — during modifiable lookup, index-bounds checking, cloning, path
editing of the staged clone, custom validation, or schema validation —
then the live Node tree, the version counter, and the modifiables
registry are all left unchanged by the call. -/
theorem claim_C2_fail_fast_atomicity :
    (∀ (st : ManagerState) (o : MutOracle) (path : String) (index : Int)
      (value : GoValue) (e : MutErr),
      (insertLocked st o path index value).res = .error e →
      preMutationErr e = true →
      (insertLocked st o path index value).state.config = st.config ∧
      (insertLocked st o path index value).state.version = st.version ∧
      (insertLocked st o path index value).state.modifiables = st.modifiables) ∧
    (∀ (st : ManagerState) (o : MutOracle) (path : String) (index : Int)
      (e : MutErr),
      (removeLocked st o path index).res = .error e →
      preMutationErr e = true →
      (removeLocked st o path index).state.config = st.config ∧
      (removeLocked st o path index).state.version = st.version ∧
      (removeLocked st o path index).state.modifiables = st.modifiables) ∧
    (∀ (st : ManagerState) (o : MutOracle) (path : String) (value : GoValue)
      (e : MutErr),
      (replaceLocked st o path value).res = .error e →
      preMutationErr e = true →
      (replaceLocked st o path value).state.config = st.config ∧
      (replaceLocked st o path value).state.version = st.version ∧
      (replaceLocked st o path value).state.modifiables = st.modifiables) :=
  ⟨fun st o path index value e he hp =>
      insertLocked_preMutation_frozen st o path index value e he hp,
   fun st o path index e he hp =>
      removeLocked_preMutation_frozen st o path index e he hp,
   fun st o path value e he hp =>
      replaceLocked_preMutation_frozen st o path value e he hp⟩

/-- Witness for C2 at a concrete input: a schema-validation failure on an
insert leaves tree, version and registry untouched. -/
theorem claim_C2_fail_fast_atomicity_witness :
    (insertLocked
      { config := Node.objN 0 [("items", Node.arrN 1 [Node.intN 2 7])],
        modifiables := [{ type := .Insertable, path := "/items", nodeId := 1,
                          hasHandler := false }],
        version := 1, pathCacheValid := false, pathCache := [], nextId := 3 }
      ⟨true, true, true, false, true, true⟩ "/items" 0 (.intV 9)).res =
        .error .schemaFailed ∧
    preMutationErr .schemaFailed = true ∧
    ((insertLocked
      { config := Node.objN 0 [("items", Node.arrN 1 [Node.intN 2 7])],
        modifiables := [{ type := .Insertable, path := "/items", nodeId := 1,
                          hasHandler := false }],
        version := 1, pathCacheValid := false, pathCache := [], nextId := 3 }
      ⟨true, true, true, false, true, true⟩ "/items" 0 (.intV 9)).state.config =
        Node.objN 0 [("items", Node.arrN 1 [Node.intN 2 7])] ∧
     (insertLocked
      { config := Node.objN 0 [("items", Node.arrN 1 [Node.intN 2 7])],
        modifiables := [{ type := .Insertable, path := "/items", nodeId := 1,
                          hasHandler := false }],
        version := 1, pathCacheValid := false, pathCache := [], nextId := 3 }
      ⟨true, true, true, false, true, true⟩ "/items" 0 (.intV 9)).state.version = 1 ∧
     (insertLocked
      { config := Node.objN 0 [("items", Node.arrN 1 [Node.intN 2 7])],
        modifiables := [{ type := .Insertable, path := "/items", nodeId := 1,
                          hasHandler := false }],
        version := 1, pathCacheValid := false, pathCache := [], nextId := 3 }
      ⟨true, true, true, false, true, true⟩ "/items" 0 (.intV 9)).state.modifiables =
        [{ type := .Insertable, path := "/items", nodeId := 1,
           hasHandler := false }]) :=
  ⟨rfl, rfl, claim_C2_fail_fast_atomicity.1 _ _ _ _ _ .schemaFailed rfl rfl⟩

/-! ### C9: typed accessors -/

/-- Counterexample to C9 as stated: `getInt` does NOT fail on a node whose
stored variant is a float — it truncates toward zero (`int(v)` on the
float 5/2 gives 2, on -5/2 gives -2) — and `getFloat` does not fail on an
integer variant. -/
theorem claim_C9_counterexample :
    (Node.floatN 0 (Rat.mk' 5 2)).GetInt [] = .ok 2 ∧
    (Node.floatN 0 (Rat.mk' (-5) 2)).GetInt [] = .ok (-2) ∧
    (Node.intN 0 3).GetFloat [] = .ok 3 :=
  ⟨rfl, rfl, rfl⟩

/-- C9 (amended).  `GetString`/`GetBool`/`GetObject`/`GetArray` fail with
a type-mismatch error exactly when the stored variant does not match;
`GetInt` and `GetFloat` accept both numeric variants (`GetInt` truncating
floats toward zero, `GetFloat` converting integers) and fail exactly on
non-numeric variants. -/
theorem claim_C9_typed_accessors (n : Node) :
    ((n.GetString []).isOk = true ↔ n.typ = .String) ∧
    ((n.GetBool []).isOk = true ↔ n.typ = .Boolean) ∧
    (n.GetObject.isOk = true ↔ n.typ = .Object) ∧
    (n.GetArray.isOk = true ↔ n.typ = .Array) ∧
    ((n.GetInt []).isOk = true ↔ (n.typ = .Integral ∨ n.typ = .FloatingPoint)) ∧
    ((n.GetFloat []).isOk = true ↔ (n.typ = .Integral ∨ n.typ = .FloatingPoint)) := by
  cases n <;>
    simp [Node.GetString, Node.getString, Node.GetBool, Node.getBool,
      Node.GetObject, Node.GetArray, Node.GetInt, Node.getInt,
      Node.GetFloat, Node.getFloat, Node.typ, Except.isOk, Except.toBool]

/-- Witness for C9 (amended) at concrete nodes: a string node's
`GetString` succeeds, and a float node's `GetInt` succeeds because the
variant is numeric. -/
theorem claim_C9_typed_accessors_witness :
    ((Node.strN 7 "s").GetString []).isOk = true ∧
    ((Node.floatN 8 (Rat.mk' 5 2)).GetInt []).isOk = true :=
  ⟨(claim_C9_typed_accessors (Node.strN 7 "s")).1.mpr rfl,
   (claim_C9_typed_accessors (Node.floatN 8 (Rat.mk' 5 2))).2.2.2.2.1.mpr
     (Or.inr rfl)⟩

/-! ### C5: filter evaluation -/

/-- `flatMap` of a singleton is a `map`: the shape of the wildcard
branches of `executeQuery`. -/
theorem flatMap_singleton_map {α β : Type} (l : List α) (f : α → β) :
    (l.flatMap fun a => [f a]) = l.map f := by
  induction l with
  | nil => rfl
  | cons a l ih => simp [List.flatMap_cons, ih]

/-- `flatMap` of an if-singleton is a filter-then-map: the shape of the
filter branch of `executeQuery`. -/
theorem flatMap_if_singleton {α β : Type} (l : List α) (p : α → Bool) (f : α → β) :
    (l.flatMap fun a => if p a then [f a] else []) =
      (l.filter p).map f := by
  induction l with
  | nil => rfl
  | cons a l ih =>
    by_cases h : p a <;> simp [List.flatMap_cons, h, ih, List.filter_cons]

/-- C5.  Filter-segment evaluation: only object elements are considered;
an element lacking the field or whose field is not a primitive never
matches and never raises an error; `==`/`!=` compare only within the same
primitive kind, cross-kind comparisons being always unequal; ordering
operators coerce both operands to numeric and yield non-match (not an
error) when either side is non-numeric. -/
theorem claim_C5_filter_semantics :
    (∀ (node : Node) (cond : FilterCondition),
      node.typ ≠ .Object → matchesFilter node cond = false) ∧
    (∀ (node : Node) (cond : FilterCondition) (msg : String),
      node.At (.key cond.field) = .error msg → matchesFilter node cond = false) ∧
    (∀ (node : Node) (cond : FilterCondition) (f : Node),
      node.At (.key cond.field) = .ok f →
      (f.typ = .Null ∨ f.typ = .Object ∨ f.typ = .Array) →
      matchesFilter node cond = false) ∧
    (∀ l r : GoPrim, l.kind ≠ r.kind →
      compareEqual l r = false ∧
      evaluateCondition l "==" r = false ∧
      evaluateCondition l "!=" r = true) ∧
    (∀ (l : GoPrim) (op : String) (r : GoPrim),
      (op = ">" ∨ op = "<" ∨ op = ">=" ∨ op = "<=") →
      (toFloat64 l = none ∨ toFloat64 r = none) →
      evaluateCondition l op r = false) ∧
    (∀ (id : Nat) (elems : List Node) (p : String) (cond : FilterCondition)
      (rest : List QuerySeg),
      ∃ rs, executeQuery (.arrN id elems) p (.filt cond :: rest) = .ok rs) ∧
    (∀ (id : Nat) (elems : List Node) (p : String) (cond : FilterCondition),
      executeQuery (.arrN id elems) p [.filt cond] =
        .ok ((elems.enum.filter (fun ic => matchesFilter ic.2 cond)).map
          (fun ic => ⟨p ++ "/" ++ toString ic.1, ic.2⟩))) := by
  refine ⟨?_, ?_, ?_, ?_, ?_, ?_, ?_⟩
  · intro node cond h
    unfold matchesFilter
    simp [h]
  · intro node cond msg h
    unfold matchesFilter
    by_cases ho : node.typ = .Object <;> simp [ho, h]
  · intro node cond f h hf
    unfold matchesFilter
    by_cases ho : node.typ = .Object <;> simp [ho, h]
    rcases hf with hf | hf | hf <;> rw [hf]
  · intro l r h
    cases l <;> cases r <;>
      first
      | exact absurd rfl h
      | simp [compareEqual, evaluateCondition]
  · intro l op r hop hnone
    rcases hop with h | h | h | h <;> subst h <;>
      rcases hnone with h | h <;>
      simp [evaluateCondition, compareNumeric, h]
  · intro id elems p cond rest
    exact ⟨_, rfl⟩
  · intro id elems p cond
    simp only [executeQuery]
    congr 1
    exact flatMap_if_singleton elems.enum (fun ic => matchesFilter ic.2 cond)
      (fun ic => QueryResult.mk (p ++ "/" ++ toString ic.1) ic.2)

/-- Witness for C5 at concrete inputs: a non-object element never matches;
a cross-kind equality is unequal; a string-valued ordering comparison is a
non-match. -/
theorem claim_C5_filter_semantics_witness :
    matchesFilter (Node.intN 0 5) ⟨"age", ">", .numP 1⟩ = false ∧
    (compareEqual (.strP "5") (.numP 5) = false ∧
      evaluateCondition (.strP "5") "==" (.numP 5) = false ∧
      evaluateCondition (.strP "5") "!=" (.numP 5) = true) ∧
    evaluateCondition (.strP "a") ">" (.numP 1) = false :=
  ⟨claim_C5_filter_semantics.1 (Node.intN 0 5) ⟨"age", ">", .numP 1⟩ (by decide),
   claim_C5_filter_semantics.2.2.2.1 (.strP "5") (.numP 5) (by decide),
   claim_C5_filter_semantics.2.2.2.2.1 (.strP "a") ">" (.numP 1) (Or.inl rfl)
     (Or.inl rfl)⟩

/-! ### C3: conditional operations and compare-and-swap -/

/-- A delegated mutation never reports a version conflict: the mutation
protocol has no `ConflictError` among its failure classes (in Go, none of
`insertLocked`/`removeLocked`/`replaceLocked` constructs a
`*ConflictError`). -/
theorem toCond_not_conflict (r : MutResult) :
    IsConflictError r.toCond.res = false := by
  cases hr : r.res <;> simp [MutResult.toCond, IsConflictError, hr, Except.mapError]

/-- Counterexample to C3 as stated: with the version matching
(`Version() = 1 = expectedVersion`), `ConditionalReplace` still fails —
here with a not-modifiable error on an unregistered path — so
"`ConditionalReplace(path, v, x)` succeeds iff `Version() == v`" is false. -/
theorem claim_C3_counterexample :
    (ConditionalReplace
      { config := Node.objN 0 [], modifiables := [], version := 1,
        pathCacheValid := false, pathCache := [], nextId := 1 }
      ⟨true, true, true, true, true, true⟩ "/a" 1 (.intV 0)).res =
      .error (.mutErr .notModifiable) ∧
    ({ config := Node.objN 0 [], modifiables := [], version := 1,
       pathCacheValid := false, pathCache := [], nextId := 1 } : ManagerState).version
      = 1 :=
  ⟨rfl, rfl⟩

/-- C3 (amended).  The four optimistic operations return a `ConflictError`
iff the supplied expected version differs from the live version at the
check; on a version match they delegate to the underlying mutation, which
may still fail with a non-conflict error (`CompareAndSwap` is exactly
`ConditionalReplace` then); on a mismatch only `CompareAndSwap`'s conflict
error carries the current value at the path when `queryLocked` resolves
it, while the `Conditional*` conflict errors carry no value. -/
theorem claim_C3_conditional_semantics (st : ManagerState) (o : MutOracle)
    (path : String) (index : Int) (v : Int) (value : GoValue) :
    (IsConflictError (ConditionalInsert st o path index v value).res = true ↔
      st.version ≠ v) ∧
    (IsConflictError (ConditionalRemove st o path index v).res = true ↔
      st.version ≠ v) ∧
    (IsConflictError (ConditionalReplace st o path v value).res = true ↔
      st.version ≠ v) ∧
    (IsConflictError (CompareAndSwap st o path v value).res = true ↔
      st.version ≠ v) ∧
    (st.version = v →
      CompareAndSwap st o path v value = (replaceLocked st o path value).toCond ∧
      ConditionalReplace st o path v value = (replaceLocked st o path value).toCond) ∧
    (st.version ≠ v →
      (∃ ce, (CompareAndSwap st o path v value).res = .error (.conflict ce) ∧
        ce.yourVersion = v ∧ ce.currentVersion = st.version ∧
        (∀ r rs, queryLocked st.config path = .ok (r :: rs) →
          ce.currentValue = some r.node)) ∧
      (∃ ce, (ConditionalReplace st o path v value).res = .error (.conflict ce) ∧
        ce.yourVersion = v ∧ ce.currentVersion = st.version ∧
        ce.currentValue = none)) := by
  by_cases h : st.version = v
  · refine ⟨?_, ?_, ?_, ?_, fun _ => ?_, fun hne => absurd h hne⟩ <;>
      simp [ConditionalInsert, ConditionalRemove, ConditionalReplace,
        CompareAndSwap, h, toCond_not_conflict]
  · refine ⟨?_, ?_, ?_, ?_, fun he => absurd he h, fun _ => ⟨?_, ?_⟩⟩
    · simp [ConditionalInsert, h, IsConflictError]
    · simp [ConditionalRemove, h, IsConflictError]
    · simp [ConditionalReplace, h, IsConflictError]
    · simp [CompareAndSwap, h, IsConflictError]
    · refine ⟨⟨path, "compare-and-swap", v, st.version,
          (match queryLocked st.config path with
            | .ok (r :: _) => some r.node
            | _ => none)⟩,
        by simp [CompareAndSwap, h], rfl, rfl, ?_⟩
      intro r rs hq
      simp [hq]
    · exact ⟨NewConflictError path "replace" v st.version,
        by simp [ConditionalReplace, h], rfl, rfl, rfl⟩

/-- Witness for C3 (amended) at a concrete input: with live version 1 and
expected version 2 the operation reports a conflict carrying both
versions and no value. -/
theorem claim_C3_conditional_semantics_witness :
    ((1 : Int) ≠ 2) ∧
    (∃ ce, (ConditionalReplace
      { config := Node.objN 0 [], modifiables := [], version := 1,
        pathCacheValid := false, pathCache := [], nextId := 1 }
      ⟨true, true, true, true, true, true⟩ "/a" 2 (.intV 0)).res =
        .error (.conflict ce) ∧
      ce.yourVersion = 2 ∧ ce.currentVersion = 1 ∧ ce.currentValue = none) :=
  ⟨by decide,
   ((claim_C3_conditional_semantics
      { config := Node.objN 0 [], modifiables := [], version := 1,
        pathCacheValid := false, pathCache := [], nextId := 1 }
      ⟨true, true, true, true, true, true⟩ "/a" 0 2 (.intV 0)).2.2.2.2.2
      (by decide)).2⟩

/-! ### C10: the root can never be registered as modifiable -/

/-- `findNodePathLocked` maps the root to the empty path whichever branch
is taken, provided a valid cache is the rebuilt cache of the current tree
(the invariant every maintained manager state satisfies: the flag is set
only by `rebuildPathCache` and cleared on every commit). -/
theorem findNodePathLocked_root (st : ManagerState)
    (hcache : st.pathCacheValid = true → st.pathCache = buildPathCache st.config "") :
    findNodePathLocked st st.config.nid = "" := by
  unfold findNodePathLocked
  by_cases hv : st.pathCacheValid
  · rw [if_pos hv, hcache hv]
    unfold buildPathCache
    simp [List.lookup]
  · rw [if_neg hv]
    unfold findNodePath findNodePathSegs
    simp

/-- C10.  Calling `OnInsert`, `OnRemove`, or `OnReplace` with the root
node itself always fails and adds no registry entry: the path computed
for the root is the empty string, which registration rejects. -/
theorem claim_C10_root_not_registrable (st : ManagerState) (hasH : Bool)
    (hcache : st.pathCacheValid = true → st.pathCache = buildPathCache st.config "") :
    (∃ e, OnInsert st st.config hasH = (.error e, st)) ∧
    (∃ e, OnRemove st st.config hasH = (.error e, st)) ∧
    (∃ e, OnReplace st st.config hasH = (.error e, st)) := by
  have hpath := findNodePathLocked_root st hcache
  have hsan : findAndSanitizeNodePathLocked st st.config.nid =
      .error "node has no valid path in config tree" := by
    simp [findAndSanitizeNodePathLocked, hpath]
  refine ⟨?_, ?_, ?_⟩
  · unfold OnInsert
    by_cases ht : st.config.typ ≠ .Array
    · exact ⟨_, by rw [if_pos ht]⟩
    · exact ⟨_, by rw [if_neg ht, hsan]⟩
  · unfold OnRemove
    by_cases ht : st.config.typ ≠ .Array
    · exact ⟨_, by rw [if_pos ht]⟩
    · exact ⟨_, by rw [if_neg ht, hsan]⟩
  · unfold OnReplace
    rw [hsan]
    exact ⟨_, rfl⟩

/-- Witness for C10 at a concrete manager: registering the root of a
two-entry document fails for all three kinds and leaves the registry
empty. -/
theorem claim_C10_root_not_registrable_witness :
    (∃ e, OnInsert
      { config := Node.objN 0 [("a", Node.intN 1 1)], modifiables := [],
        version := 1, pathCacheValid := false, pathCache := [], nextId := 2 }
      (Node.objN 0 [("a", Node.intN 1 1)]) false =
      (.error e,
       { config := Node.objN 0 [("a", Node.intN 1 1)], modifiables := [],
         version := 1, pathCacheValid := false, pathCache := [], nextId := 2 })) ∧
    (∃ e, OnRemove
      { config := Node.objN 0 [("a", Node.intN 1 1)], modifiables := [],
        version := 1, pathCacheValid := false, pathCache := [], nextId := 2 }
      (Node.objN 0 [("a", Node.intN 1 1)]) false =
      (.error e,
       { config := Node.objN 0 [("a", Node.intN 1 1)], modifiables := [],
         version := 1, pathCacheValid := false, pathCache := [], nextId := 2 })) ∧
    (∃ e, OnReplace
      { config := Node.objN 0 [("a", Node.intN 1 1)], modifiables := [],
        version := 1, pathCacheValid := false, pathCache := [], nextId := 2 }
      (Node.objN 0 [("a", Node.intN 1 1)]) false =
      (.error e,
       { config := Node.objN 0 [("a", Node.intN 1 1)], modifiables := [],
         version := 1, pathCacheValid := false, pathCache := [], nextId := 2 })) :=
  claim_C10_root_not_registrable
    { config := Node.objN 0 [("a", Node.intN 1 1)], modifiables := [],
      version := 1, pathCacheValid := false, pathCache := [], nextId := 2 }
    false (fun h => absurd h (by decide))

/-! ### C4: what the change callback receives -/

/-- C4 evaluated at the failing input (code bug): the node handed to the
registered change handler by `insertLocked` is the live inserted node
itself — its identity is reachable in the post-mutation tree — not a deep
copy.  (`part_000` line 304 has `handlerNode := newNode.DeepCopy()`
commented out in favor of `handlerNode := newNode`, while the
documentation of `Config()` and the `QueryResult` docs promise copies.) -/
theorem claim_C4_callback_gets_live_node :
    (insertLocked
      { config := Node.objN 0 [("items", Node.arrN 1 [])],
        modifiables := [{ type := .Insertable, path := "/items", nodeId := 1,
                          hasHandler := true }],
        version := 1, pathCacheValid := false, pathCache := [], nextId := 2 }
      ⟨true, true, true, true, true, true⟩ "/items" 0 (.intV 99)).res = .ok () ∧
    (insertLocked
      { config := Node.objN 0 [("items", Node.arrN 1 [])],
        modifiables := [{ type := .Insertable, path := "/items", nodeId := 1,
                          hasHandler := true }],
        version := 1, pathCacheValid := false, pathCache := [], nextId := 2 }
      ⟨true, true, true, true, true, true⟩ "/items" 0 (.intV 99)).notified =
      some (Node.intN 2 99) ∧
    lookupById
      (insertLocked
        { config := Node.objN 0 [("items", Node.arrN 1 [])],
          modifiables := [{ type := .Insertable, path := "/items", nodeId := 1,
                            hasHandler := true }],
          version := 1, pathCacheValid := false, pathCache := [], nextId := 2 }
        ⟨true, true, true, true, true, true⟩ "/items" 0 (.intV 99)).state.config 2 =
      some (Node.intN 2 99) :=
  ⟨rfl, rfl, rfl⟩

/-! ### C6: result order under wildcard and filter segments -/

/-- Counterexample to C6 as stated: the two-member `users` object below is
read in insertion order `u1, u2`, but the Go map it is stored into may
iterate `u2, u1` — a legal elaboration — and then `/users/*/name` returns
the names in the order `B, A`, not member-insertion order `A, B`. -/
theorem claim_C6_counterexample :
    GoMapElab
      (.objV [("users", .objV [("u1", .objV [("name", .strV "A")]),
                               ("u2", .objV [("name", .strV "B")])])])
      (.objN 0 [("users", .objN 1 [
        ("u2", .objN 2 [("name", .strN 3 "B")]),
        ("u1", .objN 4 [("name", .strN 5 "A")])])]) ∧
    (executeQuery
      (.objN 0 [("users", .objN 1 [
        ("u2", .objN 2 [("name", .strN 3 "B")]),
        ("u1", .objN 4 [("name", .strN 5 "A")])])])
      "" [.key "users", .wildcard, .key "name"]).map
      (fun rs => rs.map QueryResult.path) =
      .ok ["/users/u2/name", "/users/u1/name"] ∧
    (["/users/u2/name", "/users/u1/name"] : List String) ≠
      ["/users/u1/name", "/users/u2/name"] := by
  refine ⟨?_, by rfl, by decide⟩
  have leafA : GoMapElab (.objV [("name", .strV "A")])
      (.objN 4 [("name", .strN 5 "A")]) :=
    GoMapElab.objE 4 _ [("name", .strN 5 "A")] _ rfl
      (List.Forall₂.cons (GoMapElab.strE 5 "A") List.Forall₂.nil)
      (List.Perm.refl _)
  have leafB : GoMapElab (.objV [("name", .strV "B")])
      (.objN 2 [("name", .strN 3 "B")]) :=
    GoMapElab.objE 2 _ [("name", .strN 3 "B")] _ rfl
      (List.Forall₂.cons (GoMapElab.strE 3 "B") List.Forall₂.nil)
      (List.Perm.refl _)
  have users : GoMapElab
      (.objV [("u1", .objV [("name", .strV "A")]),
              ("u2", .objV [("name", .strV "B")])])
      (.objN 1 [("u2", .objN 2 [("name", .strN 3 "B")]),
                ("u1", .objN 4 [("name", .strN 5 "A")])]) :=
    GoMapElab.objE 1 _
      [("u1", .objN 4 [("name", .strN 5 "A")]),
       ("u2", .objN 2 [("name", .strN 3 "B")])] _ rfl
      (List.Forall₂.cons leafA (List.Forall₂.cons leafB List.Forall₂.nil))
      (List.Perm.swap _ _ _)
  exact GoMapElab.objE 0 _
    [("users", .objN 1 [("u2", .objN 2 [("name", .strN 3 "B")]),
                        ("u1", .objN 4 [("name", .strN 5 "A")])])] _ rfl
    (List.Forall₂.cons users List.Forall₂.nil) (List.Perm.refl _)

/-- C6 (amended).  Wildcard/filter results follow the underlying
container's iteration order: index order `0,1,...` for array wildcards and
filters, and the entry order of the object's backing Go map for object
wildcards — a permutation of member-insertion order that Go does not
guarantee to equal it (see the counterexample), so only the array orders
are deterministic. -/
theorem claim_C6_result_order :
    (∀ (id : Nat) (elems : List Node) (p : String),
      executeQuery (.arrN id elems) p [.array "*"] =
        .ok (elems.enum.map
          (fun ic => QueryResult.mk (p ++ "/" ++ toString ic.1) ic.2))) ∧
    (∀ (id : Nat) (elems : List Node) (p : String) (cond : FilterCondition),
      executeQuery (.arrN id elems) p [.filt cond] =
        .ok ((elems.enum.filter (fun ic => matchesFilter ic.2 cond)).map
          (fun ic => QueryResult.mk (p ++ "/" ++ toString ic.1) ic.2))) ∧
    (∀ (id : Nat) (entries : List (String × Node)) (p : String),
      executeQuery (.objN id entries) p [.wildcard] =
        .ok (entries.map
          (fun kv => QueryResult.mk (p ++ "/" ++ kv.1) kv.2))) := by
  refine ⟨?_, ?_, ?_⟩
  · intro id elems p
    have h : executeQuery (.arrN id elems) p [.array "*"] =
        .ok (elems.enum.flatMap fun ic =>
          [QueryResult.mk (p ++ "/" ++ toString ic.1) ic.2]) := rfl
    rw [h, flatMap_singleton_map]
  · intro id elems p cond
    have h : executeQuery (.arrN id elems) p [.filt cond] =
        .ok (elems.enum.flatMap fun ic =>
          if matchesFilter ic.2 cond then
            [QueryResult.mk (p ++ "/" ++ toString ic.1) ic.2]
          else []) := rfl
    rw [h, flatMap_if_singleton]
  · intro id entries p
    have h : executeQuery (.objN id entries) p [.wildcard] =
        .ok (entries.flatMap fun kv =>
          [QueryResult.mk (p ++ "/" ++ kv.1) kv.2]) := rfl
    rw [h, flatMap_singleton_map]

/-- Witness for C6 (amended): both array elements of a two-element array
come back in index order `0,1` under `[*]`. -/
theorem claim_C6_result_order_witness :
    executeQuery (.arrN 0 [Node.intN 1 10, Node.intN 2 20]) "/items" [.array "*"] =
      .ok [⟨"/items/0", Node.intN 1 10⟩, ⟨"/items/1", Node.intN 2 20⟩] :=
  claim_C6_result_order.1 0 [Node.intN 1 10, Node.intN 2 20] "/items"

/-! ### Structural induction infrastructure for the tree -/

theorem sizeOf_child_obj {k : String} {v : Node} {i : Nat}
    {entries : List (String × Node)} (hm : (k, v) ∈ entries) :
    sizeOf v < sizeOf (Node.objN i entries) := by
  have h1 : sizeOf (k, v) ≤ sizeOf entries := le_of_lt (List.sizeOf_lt_of_mem hm)
  have h2 : sizeOf v < sizeOf (k, v) := by simp [Prod.mk.sizeOf_spec]
  simp only [Node.objN.sizeOf_spec]
  omega

theorem sizeOf_child_arr {v : Node} {i : Nat} {elems : List Node}
    (hm : v ∈ elems) : sizeOf v < sizeOf (Node.arrN i elems) := by
  have h1 : sizeOf v < sizeOf elems := List.sizeOf_lt_of_mem hm
  simp only [Node.arrN.sizeOf_spec]
  omega

/-- Strong induction on the size of a node (usable through child
membership via `sizeOf_child_obj` / `sizeOf_child_arr`). -/
theorem node_size_ind (P : Node → Prop)
    (h : ∀ n, (∀ m, sizeOf m < sizeOf n → P m) → P n) : ∀ n, P n
  | n => h n (fun m hm => node_size_ind P h m)
termination_by n => sizeOf n
decreasing_by exact hm

theorem subnodes_self (n : Node) : n ∈ subnodes n := by
  cases n <;> simp [subnodes]

theorem mem_subnodesList {m : Node} {elems : List Node} :
    m ∈ subnodesList elems ↔ ∃ e ∈ elems, m ∈ subnodes e := by
  induction elems with
  | nil => simp [subnodesList]
  | cons e es ih => simp [subnodesList, ih]

theorem mem_subnodesEntries {m : Node} {entries : List (String × Node)} :
    m ∈ subnodesEntries entries ↔ ∃ kv ∈ entries, m ∈ subnodes kv.2 := by
  induction entries with
  | nil => simp [subnodesEntries]
  | cons kv es ih =>
    cases kv
    simp [subnodesEntries, ih]

/-! ### A nonempty search result denotes a reachable node -/

theorem findSegsInList_some_mem {elems : List Node} {target : Nat} {i : Nat}
    {segs : List PathSeg}
    (hP : ∀ e ∈ elems, ∀ segs', findNodePathSegs e target = some segs' →
      ∃ m ∈ subnodes e, m.nid = target)
    (h : findSegsInList elems target i = some segs) :
    ∃ e ∈ elems, ∃ m ∈ subnodes e, m.nid = target := by
  induction elems generalizing i segs with
  | nil => simp [findSegsInList] at h
  | cons e es ih =>
    rw [findSegsInList] at h
    cases he : findNodePathSegs e target with
    | some segs' =>
      exact ⟨e, by simp, hP e (by simp) segs' he⟩
    | none =>
      rw [he] at h
      obtain ⟨e', he', hm⟩ := ih (fun x hx => hP x (by simp [hx])) h
      exact ⟨e', by simp [he'], hm⟩

theorem findSegsInEntries_some_mem {entries : List (String × Node)} {target : Nat}
    {segs : List PathSeg}
    (hP : ∀ kv ∈ entries, ∀ segs', findNodePathSegs kv.2 target = some segs' →
      ∃ m ∈ subnodes kv.2, m.nid = target)
    (h : findSegsInEntries entries target = some segs) :
    ∃ kv ∈ entries, ∃ m ∈ subnodes kv.2, m.nid = target := by
  induction entries generalizing segs with
  | nil => simp [findSegsInEntries] at h
  | cons kv es ih =>
    obtain ⟨k, v⟩ := kv
    rw [findSegsInEntries] at h
    cases he : findNodePathSegs v target with
    | some segs' =>
      exact ⟨(k, v), by simp, hP (k, v) (by simp) segs' he⟩
    | none =>
      rw [he] at h
      obtain ⟨kv', he', hm⟩ := ih (fun x hx => hP x (by simp [hx])) h
      exact ⟨kv', by simp [he'], hm⟩

/-- A successful identity search means the target identity is reachable
from the root. -/
theorem findNodePathSegs_some_mem :
    ∀ (root : Node) {target : Nat} {segs : List PathSeg},
      findNodePathSegs root target = some segs →
      ∃ m ∈ subnodes root, m.nid = target := by
  intro root
  induction root using node_size_ind with
  | h root ih =>
    intro target segs h
    by_cases hid : root.nid = target
    · exact ⟨root, subnodes_self root, hid⟩
    · cases root with
      | nullN i => rw [findNodePathSegs.eq_def, if_neg hid] at h; simp at h
      | boolN i b => rw [findNodePathSegs.eq_def, if_neg hid] at h; simp at h
      | intN i v => rw [findNodePathSegs.eq_def, if_neg hid] at h; simp at h
      | floatN i q => rw [findNodePathSegs.eq_def, if_neg hid] at h; simp at h
      | strN i s => rw [findNodePathSegs.eq_def, if_neg hid] at h; simp at h
      | arrN i elems =>
        rw [findNodePathSegs.eq_def, if_neg hid] at h
        obtain ⟨e, he, m, hm, hmid⟩ := findSegsInList_some_mem
          (fun e hme segs' hs => ih e (sizeOf_child_arr hme) hs) h
        refine ⟨m, ?_, hmid⟩
        simp only [subnodes, List.mem_cons, mem_subnodesList]
        exact Or.inr ⟨e, he, hm⟩
      | objN i entries =>
        rw [findNodePathSegs.eq_def, if_neg hid] at h
        obtain ⟨kv, hkv, m, hm, hmid⟩ := findSegsInEntries_some_mem
          (fun kv hme segs' hs =>
            ih kv.2 (sizeOf_child_obj (show (kv.1, kv.2) ∈ entries from hme)) hs) h
        refine ⟨m, ?_, hmid⟩
        simp only [subnodes, List.mem_cons, mem_subnodesEntries]
        exact Or.inr ⟨kv, hkv, hm⟩

/-- A nonempty rendered path likewise denotes a reachable identity. -/
theorem findNodePath_ne_empty_reachable {root : Node} {target : Nat}
    (h : findNodePath root target ≠ "") :
    ∃ m ∈ subnodes root, m.nid = target := by
  unfold findNodePath at h
  cases hs : findNodePathSegs root target with
  | none => rw [hs] at h; simp at h
  | some segs => exact findNodePathSegs_some_mem root hs

/-! ### C8: registry re-synchronization after a committed mutation -/

/-- After the commit tail, every surviving registry entry's stored path is
the node's current path in the new tree and is nonempty. -/
theorem commitLocked_modifiables_spec (st : ManagerState) :
    ∀ mod ∈ (commitLocked st).modifiables,
      mod.path = findNodePath (commitLocked st).config mod.nodeId ∧
      mod.path ≠ "" := by
  intro mod hmod
  simp only [commitLocked, updateModifiablesLocked, invalidatePathCache,
    List.mem_filterMap] at hmod
  obtain ⟨mod₀, _, hf⟩ := hmod
  simp only [findNodePathLocked, if_neg (Bool.false_ne_true ∘ id)] at hf
  by_cases hp : findNodePath st.config mod₀.nodeId = ""
  · simp [hp] at hf
  · simp only [if_neg hp] at hf
    cases hf
    exact ⟨rfl, hp⟩

/-- On success each mutation ends in the shared commit tail. -/
theorem insertLocked_ok_commit (st : ManagerState) (o : MutOracle)
    (path : String) (index : Int) (value : GoValue) :
    (insertLocked st o path index value).res = .ok () →
    ∃ stM, (insertLocked st o path index value).state = commitLocked stM := by
  unfold insertLocked
  repeat' split
  all_goals intro h
  all_goals first | exact Except.noConfusion h | exact ⟨_, rfl⟩

/-- On success `removeLocked` ends in the shared commit tail. -/
theorem removeLocked_ok_commit (st : ManagerState) (o : MutOracle)
    (path : String) (index : Int) :
    (removeLocked st o path index).res = .ok () →
    ∃ stM, (removeLocked st o path index).state = commitLocked stM := by
  unfold removeLocked
  repeat' split
  all_goals intro h
  all_goals first | exact Except.noConfusion h | exact ⟨_, rfl⟩

/-- On success `replaceLocked` ends in the shared commit tail. -/
theorem replaceLocked_ok_commit (st : ManagerState) (o : MutOracle)
    (path : String) (value : GoValue) :
    (replaceLocked st o path value).res = .ok () →
    ∃ stM, (replaceLocked st o path value).state = commitLocked stM := by
  unfold replaceLocked
  repeat' split
  all_goals intro h
  all_goals first | exact Except.noConfusion h | exact ⟨_, rfl⟩

theorem commitLocked_registryInSync (st : ManagerState) :
    RegistryInSync (commitLocked st) := by
  intro mod hmod
  obtain ⟨h1, h2⟩ := commitLocked_modifiables_spec st mod hmod
  refine ⟨h1, h2, ?_⟩
  exact findNodePath_ne_empty_reachable (fun hc => h2 (h1.trans hc))

/-- C8.  After every committed insert, remove, or replace: every entry
remaining in the registry refers to a node still reachable from the root
and its stored path equals that node's current path (so after removing
array element `i`, entries at sibling indices `> i` get their index
decremented — see the concrete conjunct); entries whose nodes were
detached are gone (every remaining entry resolves to a nonempty current
path).  The concrete scenario removes index 1 of a three-element array
with entries registered at `/items/1` and `/items/2`: the `/items/1`
entry (the removed node) is dropped and the `/items/2` entry is re-synced
to `/items/1`. -/
theorem claim_C8_registry_resync :
    (∀ (st : ManagerState) (o : MutOracle) (path : String) (index : Int)
      (value : GoValue),
      (insertLocked st o path index value).res = .ok () →
      RegistryInSync (insertLocked st o path index value).state) ∧
    (∀ (st : ManagerState) (o : MutOracle) (path : String) (index : Int),
      (removeLocked st o path index).res = .ok () →
      RegistryInSync (removeLocked st o path index).state) ∧
    (∀ (st : ManagerState) (o : MutOracle) (path : String) (value : GoValue),
      (replaceLocked st o path value).res = .ok () →
      RegistryInSync (replaceLocked st o path value).state) ∧
    ((removeLocked
      { config := Node.objN 0 [("items",
          Node.arrN 1 [Node.intN 2 10, Node.intN 3 20, Node.intN 4 30])],
        modifiables :=
          [{ type := .Removable, path := "/items", nodeId := 1, hasHandler := false },
           { type := .Replaceable, path := "/items/1", nodeId := 3, hasHandler := false },
           { type := .Replaceable, path := "/items/2", nodeId := 4, hasHandler := false }],
        version := 1, pathCacheValid := false, pathCache := [], nextId := 5 }
      ⟨true, true, true, true, true, true⟩ "/items" 1).res = .ok () ∧
     (removeLocked
      { config := Node.objN 0 [("items",
          Node.arrN 1 [Node.intN 2 10, Node.intN 3 20, Node.intN 4 30])],
        modifiables :=
          [{ type := .Removable, path := "/items", nodeId := 1, hasHandler := false },
           { type := .Replaceable, path := "/items/1", nodeId := 3, hasHandler := false },
           { type := .Replaceable, path := "/items/2", nodeId := 4, hasHandler := false }],
        version := 1, pathCacheValid := false, pathCache := [], nextId := 5 }
      ⟨true, true, true, true, true, true⟩ "/items" 1).state.modifiables =
      [{ type := .Removable, path := "/items", nodeId := 1, hasHandler := false },
       { type := .Replaceable, path := "/items/1", nodeId := 4, hasHandler := false }]) := by
  refine ⟨?_, ?_, ?_, rfl, rfl⟩
  · intro st o path index value h
    obtain ⟨stM, hstM⟩ := insertLocked_ok_commit st o path index value h
    rw [hstM]
    exact commitLocked_registryInSync stM
  · intro st o path index h
    obtain ⟨stM, hstM⟩ := removeLocked_ok_commit st o path index h
    rw [hstM]
    exact commitLocked_registryInSync stM
  · intro st o path value h
    obtain ⟨stM, hstM⟩ := replaceLocked_ok_commit st o path value h
    rw [hstM]
    exact commitLocked_registryInSync stM

/-- Witness for C8 at a concrete commit: after the committed insert of the
C1 scenario, the single registry entry still points at the reachable array
node under path `/items`. -/
theorem claim_C8_registry_resync_witness :
    (insertLocked
      { config := Node.objN 0 [("items", Node.arrN 1 [Node.intN 2 7])],
        modifiables := [{ type := .Insertable, path := "/items", nodeId := 1,
                          hasHandler := false }],
        version := 1, pathCacheValid := false, pathCache := [], nextId := 3 }
      ⟨true, true, true, true, true, true⟩ "/items" 0 (.intV 9)).res = .ok () ∧
    RegistryInSync
      (insertLocked
        { config := Node.objN 0 [("items", Node.arrN 1 [Node.intN 2 7])],
          modifiables := [{ type := .Insertable, path := "/items", nodeId := 1,
                            hasHandler := false }],
          version := 1, pathCacheValid := false, pathCache := [], nextId := 3 }
        ⟨true, true, true, true, true, true⟩ "/items" 0 (.intV 9)).state :=
  ⟨rfl, claim_C8_registry_resync.1 _ _ _ _ _ rfl⟩

/-! ### C7: path round-trip -/

theorem subnodes_trans :
    ∀ (root : Node) {v m : Node}, v ∈ subnodes root → m ∈ subnodes v →
      m ∈ subnodes root := by
  intro root
  induction root using node_size_ind with
  | h root ih =>
    intro v m hv hm
    cases root with
    | objN i entries =>
      simp only [subnodes, List.mem_cons, mem_subnodesEntries] at hv ⊢
      rcases hv with hv | ⟨kv, hkv, hv⟩
      · subst hv
        simp only [subnodes, List.mem_cons, mem_subnodesEntries] at hm
        exact hm
      · exact Or.inr ⟨kv, hkv,
          ih kv.2 (sizeOf_child_obj (show (kv.1, kv.2) ∈ entries from hkv)) hv hm⟩
    | arrN i elems =>
      simp only [subnodes, List.mem_cons, mem_subnodesList] at hv ⊢
      rcases hv with hv | ⟨e, he, hv⟩
      · subst hv
        simp only [subnodes, List.mem_cons, mem_subnodesList] at hm
        exact hm
      · exact Or.inr ⟨e, he, ih e (sizeOf_child_arr he) hv hm⟩
    | nullN i => simp [subnodes] at hv; subst hv; simpa [subnodes] using hm
    | boolN i b => simp [subnodes] at hv; subst hv; simpa [subnodes] using hm
    | intN i v' => simp [subnodes] at hv; subst hv; simpa [subnodes] using hm
    | floatN i q => simp [subnodes] at hv; subst hv; simpa [subnodes] using hm
    | strN i s => simp [subnodes] at hv; subst hv; simpa [subnodes] using hm

theorem GoodKeys.of_subnode {root v : Node} (hg : GoodKeys root)
    (hv : v ∈ subnodes root) : GoodKeys v :=
  fun i entries hm => hg i entries (subnodes_trans root hv hm)

/-- With distinct keys, membership of a binding determines the `lookup`
result. -/
theorem lookup_of_nodup_keys {entries : List (String × Node)} {k : String}
    {v : Node} (hnd : (entries.map Prod.fst).Nodup) (hm : (k, v) ∈ entries) :
    entries.lookup k = some v := by
  induction entries with
  | nil => simp at hm
  | cons kv es ih =>
    obtain ⟨k', v'⟩ := kv
    simp only [List.map_cons, List.nodup_cons] at hnd
    rcases List.mem_cons.mp hm with heq | htl
    · cases heq
      simp [List.lookup]
    · have hk : k' ≠ k := by
        intro hc
        exact hnd.1 (hc ▸ (List.mem_map.mpr ⟨(k, v), htl, rfl⟩))
      have hbeq : (k == k') = false := by
        simp only [beq_eq_false_iff_ne, ne_eq]
        exact fun hc => hk hc.symm
      simp only [List.lookup, hbeq]
      exact ih hnd.2 htl

theorem findSegsInList_isSome {elems : List Node} {target : Nat}
    (h : ∃ e ∈ elems, (findNodePathSegs e target).isSome) :
    ∀ i, (findSegsInList elems target i).isSome := by
  induction elems with
  | nil => simp at h
  | cons e es ih =>
    intro i
    rw [findSegsInList]
    cases he : findNodePathSegs e target with
    | some s => simp
    | none =>
      obtain ⟨e', he', hs⟩ := h
      rcases List.mem_cons.mp he' with rfl | htl
      · rw [he] at hs; simp at hs
      · exact ih ⟨e', htl, hs⟩ (i + 1)

theorem findSegsInEntries_isSome {entries : List (String × Node)} {target : Nat}
    (h : ∃ kv ∈ entries, (findNodePathSegs kv.2 target).isSome) :
    (findSegsInEntries entries target).isSome := by
  induction entries with
  | nil => simp at h
  | cons kv es ih =>
    obtain ⟨k, v⟩ := kv
    rw [findSegsInEntries]
    cases he : findNodePathSegs v target with
    | some s => simp
    | none =>
      obtain ⟨kv', he', hs⟩ := h
      rcases List.mem_cons.mp he' with rfl | htl
      · rw [he] at hs; simp at hs
      · exact ih ⟨kv', htl, hs⟩

/-- The identity search succeeds for every reachable node. -/
theorem findNodePathSegs_isSome_of_mem :
    ∀ (root : Node) {n : Node}, n ∈ subnodes root →
      (findNodePathSegs root n.nid).isSome := by
  intro root
  induction root using node_size_ind with
  | h root ih =>
    intro n hn
    by_cases hid : root.nid = n.nid
    · rw [findNodePathSegs.eq_def, if_pos hid]; simp
    · cases root with
      | nullN i => simp [subnodes] at hn; subst hn; simp [Node.nid] at hid
      | boolN i b => simp [subnodes] at hn; subst hn; simp [Node.nid] at hid
      | intN i v' => simp [subnodes] at hn; subst hn; simp [Node.nid] at hid
      | floatN i q => simp [subnodes] at hn; subst hn; simp [Node.nid] at hid
      | strN i s => simp [subnodes] at hn; subst hn; simp [Node.nid] at hid
      | arrN i elems =>
        rw [findNodePathSegs.eq_def, if_neg hid]
        simp only [subnodes, List.mem_cons, mem_subnodesList] at hn
        rcases hn with hn | ⟨e, he, hn⟩
        · subst hn; simp [Node.nid] at hid
        · exact findSegsInList_isSome
            ⟨e, he, ih e (sizeOf_child_arr he) hn⟩ 0
      | objN i entries =>
        rw [findNodePathSegs.eq_def, if_neg hid]
        simp only [subnodes, List.mem_cons, mem_subnodesEntries] at hn
        rcases hn with hn | ⟨kv, hkv, hn⟩
        · subst hn; simp [Node.nid] at hid
        · exact findSegsInEntries_isSome
            ⟨kv, hkv,
             ih kv.2 (sizeOf_child_obj (show (kv.1, kv.2) ∈ entries from hkv)) hn⟩

/-- Shape of a successful array-DFS: the first element (at offset `j + i`)
whose subtree search succeeds, its index pushed in front. -/
theorem findSegsInList_some_spec {elems : List Node} {target : Nat} :
    ∀ {j : Nat} {segs : List PathSeg}, findSegsInList elems target j = some segs →
    ∃ (i : Nat) (h : i < elems.length) (segs' : List PathSeg),
      segs = .idx (j + i) :: segs' ∧
      findNodePathSegs (elems.get ⟨i, h⟩) target = some segs' := by
  induction elems with
  | nil => intro j segs h; simp [findSegsInList] at h
  | cons e es ih =>
    intro j segs h
    rw [findSegsInList] at h
    cases he : findNodePathSegs e target with
    | some s =>
      rw [he] at h
      cases h
      exact ⟨0, by simp, s, by simp, he⟩
    | none =>
      rw [he] at h
      obtain ⟨i, hi, segs', hseq, hfind⟩ := ih h
      refine ⟨i + 1, by simpa using hi, segs', ?_, hfind⟩
      rw [hseq]
      congr 2
      omega

/-- Shape of a successful object-DFS: the first binding whose subtree
search succeeds, its key pushed in front. -/
theorem findSegsInEntries_some_spec {entries : List (String × Node)} {target : Nat} :
    ∀ {segs : List PathSeg}, findSegsInEntries entries target = some segs →
    ∃ (k : String) (v : Node) (segs' : List PathSeg),
      segs = .key k :: segs' ∧ (k, v) ∈ entries ∧
      findNodePathSegs v target = some segs' := by
  induction entries with
  | nil => intro segs h; simp [findSegsInEntries] at h
  | cons kv es ih =>
    obtain ⟨k', v'⟩ := kv
    intro segs h
    rw [findSegsInEntries] at h
    cases he : findNodePathSegs v' target with
    | some s =>
      rw [he] at h
      cases h
      exact ⟨k', v', s, rfl, by simp, he⟩
    | none =>
      rw [he] at h
      obtain ⟨k, v, segs', hseq, hkv, hfind⟩ := ih h
      exact ⟨k, v, segs', hseq, by simp [hkv], hfind⟩

/-- Navigating the found segments with `At` reaches a node with the
searched identity (unique keys needed so that the map lookup retrieves
the binding the search matched). -/
theorem findNodePathSegs_resolve :
    ∀ (root : Node) {target : Nat} {segs : List PathSeg},
      GoodKeys root →
      findNodePathSegs root target = some segs →
      ∃ m ∈ subnodes root, resolveSegs root segs = .ok m ∧ m.nid = target := by
  intro root
  induction root using node_size_ind with
  | h root ih =>
    intro target segs hg h
    by_cases hid : root.nid = target
    · rw [findNodePathSegs.eq_def, if_pos hid] at h
      cases h
      exact ⟨root, subnodes_self root, rfl, hid⟩
    · cases root with
      | nullN i => rw [findNodePathSegs.eq_def, if_neg hid] at h; simp at h
      | boolN i b => rw [findNodePathSegs.eq_def, if_neg hid] at h; simp at h
      | intN i v' => rw [findNodePathSegs.eq_def, if_neg hid] at h; simp at h
      | floatN i q => rw [findNodePathSegs.eq_def, if_neg hid] at h; simp at h
      | strN i s => rw [findNodePathSegs.eq_def, if_neg hid] at h; simp at h
      | arrN i elems =>
        rw [findNodePathSegs.eq_def, if_neg hid] at h
        obtain ⟨iIdx, hlt, segs', hseq, hfind⟩ := findSegsInList_some_spec h
        rw [Nat.zero_add] at hseq
        subst hseq
        have hemem : elems.get ⟨iIdx, hlt⟩ ∈ elems := List.get_mem elems iIdx hlt
        have hesub : elems.get ⟨iIdx, hlt⟩ ∈ subnodes (Node.arrN i elems) := by
          simp only [subnodes, List.mem_cons, mem_subnodesList]
          exact Or.inr ⟨_, hemem, subnodes_self _⟩
        obtain ⟨m, hmsub, hres, hmid⟩ := ih _ (sizeOf_child_arr hemem)
          (hg.of_subnode hesub) hfind
        refine ⟨m, subnodes_trans _ hesub hmsub, ?_, hmid⟩
        rw [resolveSegs]
        have hAt : Node.At (Node.arrN i elems) (.idx (iIdx : Int)) =
            .ok (elems.get ⟨iIdx, hlt⟩) := by
          rw [Node.At, Node.atInt]
          rw [dif_pos ⟨by positivity, by exact_mod_cast hlt⟩]
          congr 1
        rw [hAt]
        simpa [Except.bind] using hres
      | objN i entries =>
        rw [findNodePathSegs.eq_def, if_neg hid] at h
        obtain ⟨k, v, segs', hseq, hkv, hfind⟩ := findSegsInEntries_some_spec h
        subst hseq
        have hvsub : v ∈ subnodes (Node.objN i entries) := by
          simp only [subnodes, List.mem_cons, mem_subnodesEntries]
          exact Or.inr ⟨(k, v), hkv, subnodes_self v⟩
        obtain ⟨m, hmsub, hres, hmid⟩ := ih v (sizeOf_child_obj hkv)
          (hg.of_subnode hvsub) hfind
        refine ⟨m, subnodes_trans _ hvsub hmsub, ?_, hmid⟩
        rw [resolveSegs]
        have hAt : Node.At (Node.objN i entries) (.key k) = .ok v := by
          rw [Node.At, Node.atString]
          rw [lookup_of_nodup_keys (hg i entries (subnodes_self _)) hkv]
        rw [hAt]
        simpa [Except.bind] using hres

/-- In a well-formed tree (distinct allocations) identity determines the
node. -/
theorem nid_inj_of_WFTree {root m n : Node} (hw : WFTree root)
    (hm : m ∈ subnodes root) (hn : n ∈ subnodes root) (h : m.nid = n.nid) :
    m = n :=
  List.inj_on_of_nodup_map hw hm hn h

/-- Counterexample to C7 as stated: for an object key containing `'/'`
(legal in JSON), `findNodePath` renders an ambiguous string: re-resolving
`"/a/b"` — splitting on `'/'` as every path consumer in the repository
does — fails instead of reaching the node, because the single key `"a/b"`
can no longer be recovered from the joined string. -/
theorem claim_C7_counterexample :
    (Node.strN 1 "x") ∈ subnodes (Node.objN 0 [("a/b", Node.strN 1 "x")]) ∧
    findNodePath (Node.objN 0 [("a/b", Node.strN 1 "x")]) 1 = "/a/b" ∧
    resolvePathString (Node.objN 0 [("a/b", Node.strN 1 "x")]) "/a/b" =
      .error "key not found in object" := by
  refine ⟨?_, rfl, rfl⟩
  simp [subnodes, subnodesEntries]

/-- C7 (amended).  For every node `n` reachable from the root of a
well-formed tree (distinct node allocations, distinct member keys per
object — the Go guarantees), `findNodePath(root, n)` renders the
`'/'`-joined segment sequence its search traversed, and navigating those
segments one at a time with `At` reaches exactly the node `n` itself.
Recovering the segments from the joined string additionally requires the
traversed keys to be nonempty and `'/'`-free; otherwise the string-level
round trip fails (see the counterexample). -/
theorem claim_C7_path_roundtrip (root n : Node) (hw : WFTree root)
    (hg : GoodKeys root) (hn : n ∈ subnodes root) :
    ∃ segs, findNodePathSegs root n.nid = some segs ∧
      resolveSegs root segs = .ok n ∧
      findNodePath root n.nid =
        (match segs with
         | [] => ""
         | _ => "/" ++ String.intercalate "/" (segs.map PathSeg.render)) := by
  obtain ⟨segs, hsegs⟩ :=
    Option.isSome_iff_exists.mp (findNodePathSegs_isSome_of_mem root hn)
  obtain ⟨m, hmsub, hres, hmid⟩ := findNodePathSegs_resolve root hg hsegs
  obtain rfl : m = n := nid_inj_of_WFTree hw hmsub hn hmid
  refine ⟨segs, hsegs, hres, ?_⟩
  unfold findNodePath
  rw [hsegs]
  cases segs <;> rfl

/-- Witness for C7 (amended) at a concrete tree: the round trip reaches
the `name` node of the second user. -/
theorem claim_C7_path_roundtrip_witness :
    WFTree (Node.objN 0 [("users", Node.arrN 1 [
      Node.objN 2 [("name", Node.strN 3 "A")],
      Node.objN 4 [("name", Node.strN 5 "B")]])]) ∧
    GoodKeys (Node.objN 0 [("users", Node.arrN 1 [
      Node.objN 2 [("name", Node.strN 3 "A")],
      Node.objN 4 [("name", Node.strN 5 "B")]])]) ∧
    (Node.strN 5 "B") ∈ subnodes (Node.objN 0 [("users", Node.arrN 1 [
      Node.objN 2 [("name", Node.strN 3 "A")],
      Node.objN 4 [("name", Node.strN 5 "B")]])]) ∧
    ∃ segs,
      findNodePathSegs (Node.objN 0 [("users", Node.arrN 1 [
        Node.objN 2 [("name", Node.strN 3 "A")],
        Node.objN 4 [("name", Node.strN 5 "B")]])]) (Node.strN 5 "B").nid =
        some segs ∧
      resolveSegs (Node.objN 0 [("users", Node.arrN 1 [
        Node.objN 2 [("name", Node.strN 3 "A")],
        Node.objN 4 [("name", Node.strN 5 "B")]])]) segs = .ok (Node.strN 5 "B") ∧
      findNodePath (Node.objN 0 [("users", Node.arrN 1 [
        Node.objN 2 [("name", Node.strN 3 "A")],
        Node.objN 4 [("name", Node.strN 5 "B")]])]) (Node.strN 5 "B").nid =
        (match segs with
         | [] => ""
         | _ => "/" ++ String.intercalate "/" (segs.map PathSeg.render)) := by
  refine ⟨?_, ?_, ?_, ?_⟩
  · simp [WFTree, treeIds, subnodes, subnodesEntries, subnodesList, Node.nid]
  · intro i entries hmem
    simp [subnodes, subnodesEntries, subnodesList] at hmem
    rcases hmem with ⟨rfl, rfl⟩ | ⟨rfl, rfl⟩ | ⟨rfl, rfl⟩ <;> simp
  · simp [subnodes, subnodesEntries, subnodesList]
  · exact (claim_C7_path_roundtrip _ (Node.strN 5 "B")
      (by simp [WFTree, treeIds, subnodes, subnodesEntries, subnodesList, Node.nid])
      (by intro i entries hmem
          simp [subnodes, subnodesEntries, subnodesList] at hmem
          rcases hmem with ⟨rfl, rfl⟩ | ⟨rfl, rfl⟩ | ⟨rfl, rfl⟩ <;> simp)
      (by simp [subnodes, subnodesEntries, subnodesList]))

/-! ### DeepCopy preserves structure -/

theorem deepCopyList_strip {elems : List Node}
    (hP : ∀ e ∈ elems, ∀ c, strip (DeepCopy e c).1 = strip e) :
    ∀ c, stripList (deepCopyList elems c).1 = stripList elems := by
  induction elems with
  | nil => intro c; rfl
  | cons e es ih =>
    intro c
    rcases hdc : DeepCopy e c with ⟨e', c'⟩
    rcases hde : deepCopyList es c' with ⟨es', c''⟩
    rw [deepCopyList, hdc]
    dsimp only
    rw [hde]
    have h1 : strip e' = strip e := by
      have := hP e (by simp) c
      rwa [hdc] at this
    have h2 : stripList es' = stripList es := by
      have := ih (fun x hx => hP x (by simp [hx])) c'
      rwa [hde] at this
    simp only [stripList]
    rw [h1, h2]

theorem deepCopyEntries_strip {entries : List (String × Node)}
    (hP : ∀ kv ∈ entries, ∀ c, strip (DeepCopy kv.2 c).1 = strip kv.2) :
    ∀ c, stripEntries (deepCopyEntries entries c).1 = stripEntries entries := by
  induction entries with
  | nil => intro c; rfl
  | cons kv es ih =>
    obtain ⟨k, v⟩ := kv
    intro c
    rcases hdc : DeepCopy v c with ⟨v', c'⟩
    rcases hde : deepCopyEntries es c' with ⟨es', c''⟩
    rw [deepCopyEntries, hdc]
    dsimp only
    rw [hde]
    have h1 : strip v' = strip v := by
      have := hP (k, v) (by simp) c
      rwa [hdc] at this
    have h2 : stripEntries es' = stripEntries es := by
      have := ih (fun x hx => hP x (by simp [hx])) c'
      rwa [hde] at this
    simp only [stripEntries]
    rw [h1, h2]

/-- `DeepCopy` produces a structurally identical tree (§4.1's deep-copy
contract), whatever fresh ids it allocates. -/
theorem DeepCopy_strip : ∀ (n : Node) (c : Nat), strip (DeepCopy n c).1 = strip n := by
  intro n
  induction n using node_size_ind with
  | h n ih =>
    intro c
    cases n with
    | nullN i => rfl
    | boolN i b => rfl
    | intN i v => rfl
    | floatN i q => rfl
    | strN i s => rfl
    | objN i entries =>
      rcases hde : deepCopyEntries entries c with ⟨es', c'⟩
      rw [DeepCopy, hde]
      dsimp only
      simp only [strip]
      have := deepCopyEntries_strip
        (fun kv hkv c'' => ih kv.2 (sizeOf_child_obj
          (show (kv.1, kv.2) ∈ entries from hkv)) c'') c
      rw [hde] at this
      dsimp only at this
      rw [this]
    | arrN i elems =>
      rcases hde : deepCopyList elems c with ⟨es', c'⟩
      rw [DeepCopy, hde]
      dsimp only
      simp only [strip]
      have := deepCopyList_strip
        (fun e he c'' => ih e (sizeOf_child_arr he) c'') c
      rw [hde] at this
      dsimp only at this
      rw [this]

end ConfigManager
